import Mathlib

set_option maxHeartbeats 1000000

namespace NftSdk

/-!
Verification of the nft-rust-sdk command-line client (src/src/main.rs).

The client constructs, submits and tracks smart-contract transactions.
The schema-driven value codec (`serial_value` / `to_json_string_pretty`)
and the schema parser live in the external concordium SDK and are
modelled from the spec (§4.1, §4.2); the byte-level base64 requirement,
the transaction construction and the whole control flow of `main` are
embedded directly from the source.
-/

/-! ## Little-endian fixed-width integers (spec §4.2, numeric semantics) -/

/-- Little-endian byte encoding of a natural number at exactly `w` bytes. -/
def toLEBytes : Nat → Nat → List Nat
  | 0, _ => []
  | w + 1, n => n % 256 :: toLEBytes w (n / 256)

/-- Little-endian byte decoding of a whole byte list. -/
def fromLEBytes : List Nat → Nat
  | [] => 0
  | b :: bs => b + 256 * fromLEBytes bs

theorem length_toLEBytes (w n : Nat) : (toLEBytes w n).length = w := by
  induction w generalizing n with
  | zero => rfl
  | succ w ih => simp [toLEBytes, ih]

theorem fromLEBytes_toLEBytes (w n : Nat) (h : n < 256 ^ w) :
    fromLEBytes (toLEBytes w n) = n := by
  induction w generalizing n with
  | zero => simp [Nat.pow_zero, Nat.lt_one_iff] at h; simp [toLEBytes, fromLEBytes, h]
  | succ w ih =>
      have hdiv : n / 256 < 256 ^ w := by
        rw [Nat.div_lt_iff_lt_mul (by norm_num)]
        calc n < 256 ^ (w + 1) := h
        _ = 256 ^ w * 256 := by rw [Nat.pow_succ]
      simp [toLEBytes, fromLEBytes, ih _ hdiv, Nat.mod_add_div]

/-! ## Hex strings (byte arrays are rendered as hex in the JSON interchange, spec §8 scenario 1) -/

/-- Value of a single lowercase hexadecimal digit character (0–9 are codes
48–57, a–f are codes 97–102). -/
def hexDigitVal (c : Char) : Option Nat :=
  if 48 ≤ c.toNat ∧ c.toNat ≤ 57 then some (c.toNat - 48)
  else if 97 ≤ c.toNat ∧ c.toNat ≤ 102 then some (c.toNat - 87)
  else none

/-- Lowercase hexadecimal digit character for a value below 16. -/
def natToHexDigit (n : Nat) : Char :=
  if n < 10 then Char.ofNat (48 + n) else Char.ofNat (87 + n)

/-- Parse a hex string (as a character list) into bytes; two digits per byte. -/
def hexToBytes : List Char → Option (List Nat)
  | [] => some []
  | c1 :: c2 :: rest =>
      match hexDigitVal c1, hexDigitVal c2, hexToBytes rest with
      | some h, some l, some bs => some ((16 * h + l) :: bs)
      | _, _, _ => none
  | [_] => none

/-- Render bytes as a lowercase hex character list. -/
def bytesToHex : List Nat → List Char
  | [] => []
  | b :: bs => natToHexDigit (b / 16) :: natToHexDigit (b % 16) :: bytesToHex bs

/-! ## Character/string binary form: each scalar value at four little-endian bytes,
with a layout-declared length prefix counting characters (spec §3, §4.2). -/

/-- Encode a character list, four bytes per character. -/
def encodeChars : List Char → List Nat
  | [] => []
  | c :: cs => toLEBytes 4 c.toNat ++ encodeChars cs

/-- Decode exactly `n` characters from the front of a byte list. -/
def decodeChars : Nat → List Nat → Option (List Char × List Nat)
  | 0, bs => some ([], bs)
  | n + 1, bs =>
      if 4 ≤ bs.length then
        match decodeChars n (bs.drop 4) with
        | some (cs, rest) => some (Char.ofNat (fromLEBytes (bs.take 4)) :: cs, rest)
        | none => none
      else none

/-! ## Schema data model (spec §3, §4.1)

Modelled from the spec: the `TypeLayout` recursive description of a binary
encoding — fixed-width integers, byte arrays, length-prefixed strings,
sequences, optional values, ordered field lists (structs) and tagged unions
(enums) — lives in the concordium SDK (`concordium_std::schema::Type`),
which is not part of src/. -/

inductive TypeLayout where
  /-- Fixed-width unsigned integer, little-endian, `width` bytes. -/
  | uintN (width : Nat)
  /-- Fixed-width signed integer, two's complement little-endian, `width` bytes. -/
  | intN (width : Nat)
  /-- Single byte, 0 or 1. -/
  | boolLayout
  /-- Byte array of fixed size `len`, interchanged as a lowercase hex string. -/
  | byteArray (len : Nat)
  /-- String with a length prefix of `prefixWidth` bytes counting characters. -/
  | strLayout (prefixWidth : Nat)
  /-- Sequence with a length prefix of `prefixWidth` bytes. -/
  | seqOf (prefixWidth : Nat) (elem : TypeLayout)
  /-- Optional value: one tag byte, 0 for absent, 1 followed by the value. -/
  | optionOf (elem : TypeLayout)
  /-- Ordered field list; layout order is authoritative for wire order. -/
  | structOf (fields : List (String × TypeLayout))
  /-- Tagged union: one tag byte indexing the variant list. -/
  | enumOf (variants : List (String × TypeLayout))
deriving Repr

/-- Modelled from the spec: `StructuredValue` is the JSON-shaped interchange
value (serde_json::Value in the source) — null, bool, number, string,
ordered sequence, ordered mapping of string to StructuredValue (spec §3). -/
inductive StructuredValue where
  | null
  | bool (b : Bool)
  | num (n : Int)
  | str (s : String)
  | arr (items : List StructuredValue)
  | obj (fields : List (String × StructuredValue))
deriving Repr

/-- Keys of a field list. -/
def keysOf {α : Type} (kvs : List (String × α)) : List String := kvs.map Prod.fst

/-- Boolean distinctness of a key list. -/
def distinctKeys : List String → Bool
  | [] => true
  | k :: ks => (!(ks.contains k)) && distinctKeys ks

/-! ## Value Codec (spec §4.2)

Modelled from the spec: the two mutually inverse operations of the SDK value
codec, `serial_value` (encode: StructuredValue × TypeLayout → bytes) and the
decoding half of `to_json_string_pretty` (decode: bytes × TypeLayout →
StructuredValue), absent from src/ (src only calls them). For composites the
layout's field order defines wire order and JSON keys are looked up by name. -/

mutual

/-- Encoding half of the value codec (`serial_value` in the source's SDK). -/
def encodeValue : TypeLayout → StructuredValue → Option (List Nat)
  | .uintN w, .num n =>
      if 0 ≤ n ∧ n < (256 : Int) ^ w then some (toLEBytes w n.toNat) else none
  | .intN w, .num n =>
      if 1 ≤ w ∧ -(128 * (256 : Int) ^ (w - 1)) ≤ n ∧ n < 128 * (256 : Int) ^ (w - 1) then
        some (toLEBytes w (n % (256 : Int) ^ w).toNat)
      else none
  | .boolLayout, .bool b => some [if b then 1 else 0]
  | .byteArray len, .str s =>
      match hexToBytes s.data with
      | some bs => if bs.length = len then some bs else none
      | none => none
  | .strLayout pw, .str s =>
      if s.data.length < 256 ^ pw then
        some (toLEBytes pw s.data.length ++ encodeChars s.data)
      else none
  | .seqOf pw elem, .arr xs =>
      if xs.length < 256 ^ pw then
        match encodeSeq elem xs with
        | some body => some (toLEBytes pw xs.length ++ body)
        | none => none
      else none
  | .optionOf _, .null => some [0]
  | .optionOf elem, v => (encodeValue elem v).map (fun bs => 1 :: bs)
  | .structOf fields, .obj kvs => encodeFields fields kvs
  | .enumOf variants, .obj [(name, v)] => encodeVariant variants 0 name v
  | _, _ => none

/-- Encode the elements of a sequence in order. -/
def encodeSeq : TypeLayout → List StructuredValue → Option (List Nat)
  | _, [] => some []
  | elem, x :: xs =>
      match encodeValue elem x, encodeSeq elem xs with
      | some bs, some rest => some (bs ++ rest)
      | _, _ => none

/-- Encode a struct: walk the layout's fields in order, looking the value up
by name in the JSON object (key lookup is by name, spec §4.2). -/
def encodeFields : List (String × TypeLayout) → List (String × StructuredValue) → Option (List Nat)
  | [], _ => some []
  | (fname, flay) :: fs, kvs =>
      match List.lookup fname kvs with
      | some v =>
          match encodeValue flay v, encodeFields fs kvs with
          | some bs, some rest => some (bs ++ rest)
          | _, _ => none
      | none => none

/-- Encode a union value: find the first variant with the given name, emit its
absolute index as the tag followed by the variant payload. -/
def encodeVariant : List (String × TypeLayout) → Nat → String → StructuredValue → Option (List Nat)
  | [], _, _, _ => none
  | (vn, vl) :: vs, i, name, v =>
      if vn = name then (encodeValue vl v).map (fun bs => i :: bs)
      else encodeVariant vs (i + 1) name v

end

mutual

/-- Decoding half of the value codec (inside `to_json_string_pretty` in the
source's SDK): consume exactly the bytes the layout prescribes, return the
structured value and the remaining bytes. -/
def decodeValue : TypeLayout → List Nat → Option (StructuredValue × List Nat)
  | .uintN w, bytes =>
      if w ≤ bytes.length then
        some (.num (Int.ofNat (fromLEBytes (bytes.take w))), bytes.drop w)
      else none
  | .intN w, bytes =>
      if w ≤ bytes.length then
        let m : Int := Int.ofNat (fromLEBytes (bytes.take w))
        some (.num (if m < 128 * (256 : Int) ^ (w - 1) then m else m - (256 : Int) ^ w),
          bytes.drop w)
      else none
  | .boolLayout, b :: rest =>
      if b = 0 then some (.bool false, rest)
      else if b = 1 then some (.bool true, rest) else none
  | .boolLayout, [] => none
  | .byteArray len, bytes =>
      if len ≤ bytes.length then
        some (.str (String.mk (bytesToHex (bytes.take len))), bytes.drop len)
      else none
  | .strLayout pw, bytes =>
      if pw ≤ bytes.length then
        match decodeChars (fromLEBytes (bytes.take pw)) (bytes.drop pw) with
        | some (cs, rest) => some (.str (String.mk cs), rest)
        | none => none
      else none
  | .seqOf pw elem, bytes =>
      if pw ≤ bytes.length then
        match decodeSeq elem (fromLEBytes (bytes.take pw)) (bytes.drop pw) with
        | some (xs, rest) => some (.arr xs, rest)
        | none => none
      else none
  | .optionOf _, 0 :: rest => some (.null, rest)
  | .optionOf elem, 1 :: rest => decodeValue elem rest
  | .optionOf _, _ => none
  | .structOf fields, bytes =>
      match decodeFields fields bytes with
      | some (kvs, rest) => some (.obj kvs, rest)
      | none => none
  | .enumOf variants, tag :: rest => decodeVariant variants tag rest
  | .enumOf _, [] => none

/-- Decode exactly `n` sequence elements. -/
def decodeSeq : TypeLayout → Nat → List Nat → Option (List StructuredValue × List Nat)
  | _, 0, bytes => some ([], bytes)
  | elem, n + 1, bytes =>
      match decodeValue elem bytes with
      | some (v, rest) =>
          match decodeSeq elem n rest with
          | some (vs, rest2) => some (v :: vs, rest2)
          | none => none
      | none => none

/-- Decode a struct's fields in layout order, producing the object with keys
in that order. -/
def decodeFields :
    List (String × TypeLayout) → List Nat → Option (List (String × StructuredValue) × List Nat)
  | [], bytes => some ([], bytes)
  | (fname, flay) :: fs, bytes =>
      match decodeValue flay bytes with
      | some (v, rest) =>
          match decodeFields fs rest with
          | some (kvs, rest2) => some ((fname, v) :: kvs, rest2)
          | none => none
      | none => none

/-- Decode a union value: the tag selects the variant by position. -/
def decodeVariant :
    List (String × TypeLayout) → Nat → List Nat → Option (StructuredValue × List Nat)
  | [], _, _ => none
  | (vn, vl) :: _, 0, bytes =>
      (decodeValue vl bytes).map (fun p => (.obj [(vn, p.1)], p.2))
  | _ :: vs, t + 1, bytes => decodeVariant vs t bytes

end

mutual

/-- Conformance of a structured value to a layout: exactly the values the
schema can represent losslessly (spec §4.2 "values the schema can
represent") — numbers in the declared width's range, strings and sequences
within the declared prefix range, hex strings of the declared byte length,
objects with exactly the layout's field names in layout order (with distinct
names), and union values selecting a declared variant. -/
def conforms : TypeLayout → StructuredValue → Bool
  | .uintN w, .num n => decide (0 ≤ n) && decide (n < (256 : Int) ^ w)
  | .intN w, .num n =>
      decide (1 ≤ w) && decide (-(128 * (256 : Int) ^ (w - 1)) ≤ n) &&
        decide (n < 128 * (256 : Int) ^ (w - 1))
  | .boolLayout, .bool _ => true
  | .byteArray len, .str s =>
      decide (s.data.length = 2 * len) && s.data.all (fun c => (hexDigitVal c).isSome)
  | .strLayout pw, .str s => decide (s.data.length < 256 ^ pw)
  | .seqOf pw elem, .arr xs => decide (xs.length < 256 ^ pw) && conformsSeq elem xs
  | .optionOf _, .null => true
  | .optionOf elem, v => conforms elem v
  | .structOf fields, .obj kvs => distinctKeys (keysOf fields) && conformsFields fields kvs
  | .enumOf variants, .obj [(name, v)] => conformsVariant variants name v
  | _, _ => false

/-- Conformance of every element of a sequence. -/
def conformsSeq : TypeLayout → List StructuredValue → Bool
  | _, [] => true
  | elem, x :: xs => conforms elem x && conformsSeq elem xs

/-- Conformance of an object to a field list: keys match the layout's field
names positionally and each value conforms to its field layout. -/
def conformsFields : List (String × TypeLayout) → List (String × StructuredValue) → Bool
  | [], [] => true
  | (fname, flay) :: fs, (kname, v) :: kvs =>
      fname == kname && conforms flay v && conformsFields fs kvs
  | _, _ => false

/-- Conformance of a union value: the name matches some variant and the
payload conforms to the first variant of that name. -/
def conformsVariant : List (String × TypeLayout) → String → StructuredValue → Bool
  | [], _, _ => false
  | (vn, vl) :: vs, name, v => if vn = name then conforms vl v else conformsVariant vs name v

end

/-! ## Round-trip supporting lemmas -/

theorem take_append_of_length {α : Type} {bs rest : List α} {w : Nat} (h : bs.length = w) :
    (bs ++ rest).take w = bs := by
  subst h; exact List.take_left bs rest

theorem drop_append_of_length {α : Type} {bs rest : List α} {w : Nat} (h : bs.length = w) :
    (bs ++ rest).drop w = rest := by
  subst h; exact List.drop_left bs rest

theorem hexDigitVal_natToHexDigit : ∀ d, d < 16 → hexDigitVal (natToHexDigit d) = some d := by
  decide

theorem natToHexDigit_hexDigitVal {c : Char} {d : Nat} (h : hexDigitVal c = some d) :
    d < 16 ∧ natToHexDigit d = c := by
  unfold hexDigitVal at h
  split at h
  · rename_i hr
    injection h with h
    subst h
    refine ⟨by omega, ?_⟩
    unfold natToHexDigit
    rw [if_pos (by omega)]
    rw [show 48 + (c.toNat - 48) = c.toNat by omega]
    exact Char.ofNat_toNat c
  · split at h
    · rename_i hr2
      injection h with h
      subst h
      refine ⟨by omega, ?_⟩
      unfold natToHexDigit
      rw [if_neg (by omega)]
      rw [show 87 + (c.toNat - 87) = c.toNat by omega]
      exact Char.ofNat_toNat c
    · exact Option.noConfusion h

theorem hexToBytes_roundtrip :
    ∀ cs : List Char, (∀ c ∈ cs, (hexDigitVal c).isSome = true) → cs.length % 2 = 0 →
      ∃ bs, hexToBytes cs = some bs ∧ bs.length * 2 = cs.length ∧ bytesToHex bs = cs
  | [], _, _ => ⟨[], rfl, rfl, rfl⟩
  | [c], _, he => by simp at he
  | c1 :: c2 :: rest, hhex, he => by
      have h1 : (hexDigitVal c1).isSome = true := hhex c1 (by simp)
      have h2 : (hexDigitVal c2).isSome = true := hhex c2 (by simp)
      obtain ⟨h, hh⟩ := Option.isSome_iff_exists.mp h1
      obtain ⟨l, hl⟩ := Option.isSome_iff_exists.mp h2
      obtain ⟨hhlt, hhinv⟩ := natToHexDigit_hexDigitVal hh
      obtain ⟨hllt, hlinv⟩ := natToHexDigit_hexDigitVal hl
      obtain ⟨bs, hb, hlen, hround⟩ :=
        hexToBytes_roundtrip rest (fun c hc => hhex c (by simp [hc])) (by simp at he; omega)
      refine ⟨(16 * h + l) :: bs, ?_, ?_, ?_⟩
      · simp [hexToBytes, hh, hl, hb]
      · simp [hlen]; omega
      · have hdiv : (16 * h + l) / 16 = h := by omega
        have hmod : (16 * h + l) % 16 = l := by omega
        simp [bytesToHex, hdiv, hmod, hhinv, hlinv, hround]

theorem decodeChars_encodeChars (cs : List Char) (rest : List Nat) :
    decodeChars cs.length (encodeChars cs ++ rest) = some (cs, rest) := by
  induction cs with
  | nil => rfl
  | cons c cs ih =>
      have hlen : (toLEBytes 4 c.toNat).length = 4 := length_toLEBytes 4 c.toNat
      have hge : 4 ≤ (encodeChars (c :: cs) ++ rest).length := by
        simp [encodeChars, hlen]
      have htake : (encodeChars (c :: cs) ++ rest).take 4 = toLEBytes 4 c.toNat := by
        simp only [encodeChars, List.append_assoc]
        exact take_append_of_length hlen
      have hdrop : (encodeChars (c :: cs) ++ rest).drop 4 = encodeChars cs ++ rest := by
        simp only [encodeChars, List.append_assoc]
        exact drop_append_of_length hlen
      have hval : fromLEBytes (toLEBytes 4 c.toNat) = c.toNat :=
        fromLEBytes_toLEBytes 4 c.toNat (by have := c.val.toNat_lt; simpa using this)
      have hge2 : 4 ≤ (encodeChars (c :: cs)).length + rest.length := by
        simp [encodeChars, hlen]; omega
      simp [List.length_cons, decodeChars, hge, hge2, htake, hdrop, hval, Char.ofNat_toNat, ih]

theorem encodeFields_skip_key (fs : List (String × TypeLayout)) (kname : String)
    (v : StructuredValue) (kvs : List (String × StructuredValue))
    (h : ∀ f ∈ fs, f.1 ≠ kname) :
    encodeFields fs ((kname, v) :: kvs) = encodeFields fs kvs := by
  induction fs with
  | nil => simp [encodeFields]
  | cons f fs ih =>
      obtain ⟨fn, fl⟩ := f
      have hfn : fn ≠ kname := h (fn, fl) (by simp)
      have hfn2 : (fn == kname) = false := beq_eq_false_iff_ne.mpr hfn
      have hrec := ih (fun g hg => h g (by simp [hg]))
      simp [encodeFields, List.lookup, hfn2, hrec]

theorem intN_arith {w : Nat} {n : Int} (hw : 1 ≤ w)
    (hlo : -(128 * (256 : Int) ^ (w - 1)) ≤ n) (hhi : n < 128 * (256 : Int) ^ (w - 1)) :
    0 ≤ n % (256 : Int) ^ w ∧ n % (256 : Int) ^ w < (256 : Int) ^ w ∧
      (if (n % (256 : Int) ^ w) < 128 * (256 : Int) ^ (w - 1) then n % (256 : Int) ^ w
       else n % (256 : Int) ^ w - (256 : Int) ^ w) = n := by
  have hsplit : (256 : Int) ^ w = 2 * (128 * (256 : Int) ^ (w - 1)) := by
    conv_lhs => rw [show w = (w - 1) + 1 by omega]
    rw [pow_succ]; ring
  have hKpos : 0 < 128 * (256 : Int) ^ (w - 1) := by positivity
  have hkpos : 0 < (256 : Int) ^ w := by positivity
  have hnn : 0 ≤ n % (256 : Int) ^ w := Int.emod_nonneg n (by positivity)
  have hlt : n % (256 : Int) ^ w < (256 : Int) ^ w := Int.emod_lt_of_pos n hkpos
  refine ⟨hnn, hlt, ?_⟩
  rcases le_or_lt 0 n with hn | hn
  · have hmod : n % (256 : Int) ^ w = n := Int.emod_eq_of_lt hn (by omega)
    rw [hmod]
    have hc : n < 128 * (256 : Int) ^ (w - 1) := hhi
    simp [hc]
  · have hmod : n % (256 : Int) ^ w = n + (256 : Int) ^ w := by
      have h2 : (n + (256 : Int) ^ w * 1) % (256 : Int) ^ w = n % (256 : Int) ^ w :=
        Int.add_mul_emod_self_left n ((256 : Int) ^ w) 1
      have h3 : (n + (256 : Int) ^ w) % (256 : Int) ^ w = n + (256 : Int) ^ w :=
        Int.emod_eq_of_lt (by omega) (by omega)
      calc n % (256 : Int) ^ w = (n + (256 : Int) ^ w * 1) % (256 : Int) ^ w := h2.symm
      _ = (n + (256 : Int) ^ w) % (256 : Int) ^ w := by ring_nf
      _ = n + (256 : Int) ^ w := h3
    rw [hmod]
    have hc : ¬(n + (256 : Int) ^ w < 128 * (256 : Int) ^ (w - 1)) := by omega
    simp [hc]

theorem conforms_optionOf_ne_null (elem : TypeLayout) (v : StructuredValue)
    (hv : v ≠ StructuredValue.null) :
    conforms (.optionOf elem) v = conforms elem v := by
  cases v
  case null => exact absurd rfl hv
  all_goals simp [conforms]

theorem encodeValue_optionOf_ne_null (elem : TypeLayout) (v : StructuredValue)
    (hv : v ≠ StructuredValue.null) :
    encodeValue (.optionOf elem) v = (encodeValue elem v).map (fun bs => 1 :: bs) := by
  cases v
  case null => exact absurd rfl hv
  all_goals simp [encodeValue]

/-! ## Round-trip theorem for the value codec (spec §4.2, §8) -/

mutual

/-- Round trip of a single value through the codec: a conforming value
encodes successfully and decoding the result (with any trailing bytes)
returns the value and exactly those trailing bytes. -/
theorem roundValue (L : TypeLayout) (v : StructuredValue) (h : conforms L v = true) :
    ∃ bs, encodeValue L v = some bs ∧
      ∀ rest, decodeValue L (bs ++ rest) = some (v, rest) := by
  cases L with
  | uintN w =>
      cases v <;> simp [conforms] at h
      case num n =>
        obtain ⟨h0, h1⟩ := h
        have hlt : n.toNat < 256 ^ w := by
          have hc : ((256 ^ w : Nat) : Int) = (256 : Int) ^ w := by push_cast; ring
          omega
        have hlen : (toLEBytes w n.toNat).length = w := length_toLEBytes w n.toNat
        refine ⟨toLEBytes w n.toNat, by simp [encodeValue, h0, h1], fun rest => ?_⟩
        simp only [decodeValue]
        rw [if_pos (show w ≤ (toLEBytes w n.toNat ++ rest).length by
          rw [List.length_append, hlen]; omega)]
        rw [take_append_of_length hlen, drop_append_of_length hlen,
          fromLEBytes_toLEBytes w n.toNat hlt]
        have hcast : (Int.ofNat n.toNat) = n := by simpa using Int.toNat_of_nonneg h0
        rw [hcast]
  | intN w =>
      cases v <;> simp [conforms] at h
      case num n =>
        obtain ⟨⟨hw, hlo⟩, hhi⟩ := h
        obtain ⟨hm0, hmk, hback⟩ := intN_arith hw hlo hhi
        have hlt : (n % (256 : Int) ^ w).toNat < 256 ^ w := by
          have hc : ((256 ^ w : Nat) : Int) = (256 : Int) ^ w := by push_cast; ring
          omega
        have hlen : (toLEBytes w (n % (256 : Int) ^ w).toNat).length = w :=
          length_toLEBytes w _
        refine ⟨toLEBytes w (n % (256 : Int) ^ w).toNat,
          by simp [encodeValue, hw, hlo, hhi], fun rest => ?_⟩
        simp only [decodeValue]
        rw [if_pos (show w ≤ (toLEBytes w (n % (256 : Int) ^ w).toNat ++ rest).length by
          rw [List.length_append, hlen]; omega)]
        rw [take_append_of_length hlen, drop_append_of_length hlen,
          fromLEBytes_toLEBytes _ _ hlt]
        have hcast : (Int.ofNat (n % (256 : Int) ^ w).toNat) = n % (256 : Int) ^ w := by
          simpa using Int.toNat_of_nonneg hm0
        rw [hcast, hback]
  | boolLayout =>
      cases v <;> simp [conforms] at h
      case bool b =>
        cases b
        · exact ⟨[0], by simp [encodeValue], fun rest => by simp [decodeValue]⟩
        · exact ⟨[1], by simp [encodeValue], fun rest => by simp [decodeValue]⟩
  | byteArray len =>
      cases v <;> simp [conforms] at h
      case str s =>
        obtain ⟨hlen2, hhex⟩ := h
        have hlen2d : s.data.length = 2 * len := hlen2
        obtain ⟨bs, hb, hbl, hround⟩ := hexToBytes_roundtrip s.data
          (fun c hc => hhex c hc) (by omega)
        have hbl2 : bs.length = len := by omega
        refine ⟨bs, by simp [encodeValue, hb, hbl2], fun rest => ?_⟩
        simp only [decodeValue]
        rw [if_pos (show len ≤ (bs ++ rest).length by rw [List.length_append, hbl2]; omega)]
        rw [take_append_of_length hbl2, drop_append_of_length hbl2, hround]
  | strLayout pw =>
      cases v <;> simp [conforms] at h
      case str s =>
        have hd : s.data.length < 256 ^ pw := h
        have hlen : (toLEBytes pw s.data.length).length = pw := length_toLEBytes pw _
        refine ⟨toLEBytes pw s.data.length ++ encodeChars s.data,
          by simp [encodeValue, h, hd], fun rest => ?_⟩
        rw [List.append_assoc]
        simp only [decodeValue]
        rw [if_pos (show pw ≤ (toLEBytes pw s.data.length ++
            (encodeChars s.data ++ rest)).length by rw [List.length_append, hlen]; omega)]
        rw [take_append_of_length hlen, drop_append_of_length hlen,
          fromLEBytes_toLEBytes pw s.data.length hd, decodeChars_encodeChars]
  | seqOf pw elem =>
      cases v <;> simp [conforms] at h
      case arr xs =>
        obtain ⟨hxl, hcs⟩ := h
        obtain ⟨body, hbody, hdec⟩ := roundSeq elem xs hcs
        have hlen : (toLEBytes pw xs.length).length = pw := length_toLEBytes pw _
        refine ⟨toLEBytes pw xs.length ++ body, by simp [encodeValue, hxl, hbody],
          fun rest => ?_⟩
        rw [List.append_assoc]
        simp only [decodeValue]
        rw [if_pos (show pw ≤ (toLEBytes pw xs.length ++ (body ++ rest)).length by
          rw [List.length_append, hlen]; omega)]
        rw [take_append_of_length hlen, drop_append_of_length hlen,
          fromLEBytes_toLEBytes pw xs.length hxl, hdec rest]
  | optionOf elem =>
      by_cases hv : v = StructuredValue.null
      · subst hv
        exact ⟨[0], by simp [encodeValue], fun rest => by simp [decodeValue]⟩
      · rw [conforms_optionOf_ne_null elem v hv] at h
        obtain ⟨bs, he, hd⟩ := roundValue elem v h
        refine ⟨1 :: bs, ?_, fun rest => ?_⟩
        · rw [encodeValue_optionOf_ne_null elem v hv, he]; rfl
        · simpa [decodeValue] using hd rest
  | structOf fields =>
      cases v <;> simp [conforms] at h
      case obj kvs =>
        obtain ⟨hdk, hcf⟩ := h
        obtain ⟨bs, he, hd⟩ := roundFields fields kvs hdk hcf
        refine ⟨bs, by simp [encodeValue, he], fun rest => by simp [decodeValue, hd rest]⟩
  | enumOf variants =>
      cases v
      case obj kvs =>
        rcases kvs with _ | ⟨⟨name, v⟩, tail⟩
        · simp [conforms] at h
        · rcases tail with _ | ⟨p2, tail2⟩
          · have hcv : conformsVariant variants name v = true := by
              simpa [conforms] using h
            obtain ⟨j, bs, he, hd⟩ := roundVariant variants name v hcv 0
            refine ⟨j :: bs, ?_, fun rest => ?_⟩
            · have he0 : encodeVariant variants 0 name v = some ((0 + j) :: bs) := he
              simpa [encodeValue] using he0
            · simpa [decodeValue] using hd rest
          · simp [conforms] at h
      all_goals simp [conforms] at h
termination_by (sizeOf L, 0)

/-- Round trip of the elements of a sequence. -/
theorem roundSeq (elem : TypeLayout) (xs : List StructuredValue)
    (h : conformsSeq elem xs = true) :
    ∃ bs, encodeSeq elem xs = some bs ∧
      ∀ rest, decodeSeq elem xs.length (bs ++ rest) = some (xs, rest) := by
  cases xs with
  | nil => exact ⟨[], by simp [encodeSeq], fun rest => by simp [decodeSeq]⟩
  | cons x xs =>
      simp [conformsSeq] at h
      obtain ⟨hx, hxs⟩ := h
      obtain ⟨bs, he, hd⟩ := roundValue elem x hx
      obtain ⟨body, hbe, hbd⟩ := roundSeq elem xs hxs
      refine ⟨bs ++ body, by simp [encodeSeq, he, hbe], fun rest => ?_⟩
      rw [List.append_assoc, List.length_cons, decodeSeq, hd (body ++ rest)]
      simp [hbd rest]
termination_by (sizeOf elem, xs.length + 1)

/-- Round trip of a struct's fields: with distinct layout keys and a
conforming object, encoding by name lookup and decoding in layout order
reproduce the object. -/
theorem roundFields : (fields : List (String × TypeLayout)) →
    (kvs : List (String × StructuredValue)) →
    distinctKeys (keysOf fields) = true → conformsFields fields kvs = true →
    ∃ bs, encodeFields fields kvs = some bs ∧
      ∀ rest, decodeFields fields (bs ++ rest) = some (kvs, rest)
  | [], [], _, _ => ⟨[], by simp [encodeFields], fun rest => by simp [decodeFields]⟩
  | [], _ :: _, _, h => by simp [conformsFields] at h
  | (fn, fl) :: fs, [], _, h => by simp [conformsFields] at h
  | (fn, fl) :: fs, (kn, v) :: kvs, hdk, h => by
      simp [conformsFields] at h
      obtain ⟨⟨hfk, hv⟩, hrest⟩ := h
      subst hfk
      simp [distinctKeys, keysOf] at hdk
      obtain ⟨hni, hdk2⟩ := hdk
      obtain ⟨bs, he, hd⟩ := roundValue fl v hv
      obtain ⟨body, hbe, hbd⟩ := roundFields fs kvs (by simpa [keysOf] using hdk2) hrest
      have hskip : encodeFields fs ((fn, v) :: kvs) = encodeFields fs kvs := by
        refine encodeFields_skip_key fs fn v kvs ?_
        intro g hg hgeq
        obtain ⟨gn, gl⟩ := g
        simp only at hgeq
        subst hgeq
        exact hni gl hg
      refine ⟨bs ++ body, ?_, fun rest => ?_⟩
      · simp [encodeFields, List.lookup, he, hskip, hbe]
      · rw [List.append_assoc, decodeFields, hd (body ++ rest)]
        simp [hbd rest]
termination_by fields => (sizeOf fields, 0)

/-- Round trip of a union value: the first variant matching the name is
encoded with its absolute index as tag, and the tag decodes back to the same
variant name and payload. -/
theorem roundVariant : (variants : List (String × TypeLayout)) → (name : String) →
    (v : StructuredValue) → conformsVariant variants name v = true → (i : Nat) →
    ∃ j bs, encodeVariant variants i name v = some ((i + j) :: bs) ∧
      ∀ rest, decodeVariant variants j (bs ++ rest) =
        some (StructuredValue.obj [(name, v)], rest)
  | [], _, _, h, _ => by simp [conformsVariant] at h
  | (vn, vl) :: vs, name, v, h, i => by
      by_cases hn : vn = name
      · subst hn
        simp [conformsVariant] at h
        obtain ⟨bs, he, hd⟩ := roundValue vl v h
        refine ⟨0, bs, by simp [encodeVariant, he], fun rest => ?_⟩
        simp [decodeVariant, hd rest]
      · have h2 : conformsVariant vs name v = true := by
          simpa [conformsVariant, hn] using h
        obtain ⟨j, bs, he, hd⟩ := roundVariant vs name v h2 (i + 1)
        refine ⟨j + 1, bs, ?_, fun rest => ?_⟩
        · have hadd : i + 1 + j = i + (j + 1) := by omega
          simp [encodeVariant, hn, he, hadd]
        · simp [decodeVariant, hd rest]
termination_by variants => (sizeOf variants, 0)

end

/-- Example layout from spec §8 scenario 1: mint parameter
`(tokenId: uint32, owner: bytes32)`. -/
def mintLayout : TypeLayout :=
  .structOf [("tokenId", .uintN 4), ("owner", .byteArray 32)]

/-- Example conforming value for `mintLayout`. -/
def mintValue : StructuredValue :=
  .obj [("tokenId", .num 7),
    ("owner", .str "00112233445566778899aabbccddeeff00112233445566778899aabbccddeeff")]

/-- C1: for every StructuredValue `v` conforming to a TypeLayout `L`,
decoding the bytes produced by encoding `v` under `L` yields `v` again
(`decode(encode(v, L), L) == v`): the schema-driven value codec used for
parameter serialization and return-value deserialization is a lossless
round trip. -/
theorem C1_codec_roundtrip (L : TypeLayout) (v : StructuredValue)
    (h : conforms L v = true) :
    ∃ bs, encodeValue L v = some bs ∧ decodeValue L bs = some (v, []) := by
  obtain ⟨bs, he, hd⟩ := roundValue L v h
  exact ⟨bs, he, by simpa using hd []⟩

/-- Witness for C1 at the spec's mint scenario: `{tokenId: uint32, owner:
bytes32}` with tokenId 7 and a 64-hex-char owner. -/
theorem C1_codec_roundtrip_witness :
    conforms mintLayout mintValue = true ∧
      ∃ bs, encodeValue mintLayout mintValue = some bs ∧
        decodeValue mintLayout bs = some (mintValue, []) :=
  ⟨by simp [mintLayout, mintValue, conforms, conformsFields, distinctKeys, keysOf, hexDigitVal],
   C1_codec_roundtrip mintLayout mintValue
     (by simp [mintLayout, mintValue, conforms, conformsFields, distinctKeys, keysOf,
       hexDigitVal])⟩

/-! ## Error taxonomy (spec §7; the contextual messages of src/src/main.rs)

Each constructor corresponds to one failure stage of `main`: the
`anyhow::Context` strings attached in the source, or a bare `?` propagation
of an SDK/RPC error. There is deliberately no finalization-timeout
constructor: the source has none (spec §7). -/

inductive RpcOp where
  | getAccountInfo
  | invokeInstance
  | sendBlockItem
  | waitUntilFinalized
deriving Repr, DecidableEq

inductive CliError where
  /-- "Cannot connect." -/
  | cannotConnect
  /-- "Could not read the keys file." -/
  | couldNotReadKeysFile
  /-- "Unable to read parameter file." -/
  | unableToReadParameterFile
  /-- "Unable to parse parameter JSON." -/
  | unableToParseParameterJson
  /-- "Unable to read the schema file." -/
  | unableToReadSchemaFile
  /-- base64 decode failure of the schema file, propagated by `?` on
  `schema_source`. -/
  | base64DecodeError
  /-- schema deserialization failure, propagated by `?` on `from_bytes`. -/
  | schemaParseError
  /-- receive param/return-value schema lookup failure, propagated by `?`. -/
  | schemaLookupError
  /-- `serial_value` failure, propagated by `?`. -/
  | valueEncodeError
  /-- `to_json_string_pretty` failure (return-value decode), propagated by
  `?`. -/
  | valueDecodeError
  /-- "Could not read contract module." -/
  | couldNotReadContractModule
  /-- module deserialization failure, propagated by `?`. -/
  | moduleDeserialError
  /-- an RPC call failed, propagated by `?`. -/
  | rpcError (op : RpcOp)
deriving Repr, DecidableEq

/-! ## Base64, STANDARD_NO_PAD

Modelled from the source's `general_purpose::STANDARD_NO_PAD.decode`
(src/src/main.rs line 170): standard alphabet, no padding characters,
canonical trailing bits. -/

/-- Value of one base64 alphabet byte (ASCII code), none outside the
alphabet. -/
def sextetVal (b : Nat) : Option Nat :=
  if 65 ≤ b ∧ b ≤ 90 then some (b - 65)
  else if 97 ≤ b ∧ b ≤ 122 then some (b - 97 + 26)
  else if 48 ≤ b ∧ b ≤ 57 then some (b - 48 + 52)
  else if b = 43 then some 62
  else if b = 47 then some 63
  else none

/-- ASCII code of the base64 alphabet character for a sextet below 64. -/
def sextetChar (s : Nat) : Nat :=
  if s < 26 then s + 65
  else if s < 52 then s - 26 + 97
  else if s < 62 then s - 52 + 48
  else if s = 62 then 43 else 47

/-- Base64 decode, no padding: trailing chunks of 2 or 3 characters carry 1
or 2 bytes; a trailing chunk of 1 character (length ≡ 1 mod 4) and
non-canonical trailing bits are rejected, as is any byte outside the
alphabet. -/
def b64Decode : List Nat → Option (List Nat)
  | [] => some []
  | [_] => none
  | [c1, c2] =>
      match sextetVal c1, sextetVal c2 with
      | some s1, some s2 => if s2 % 16 = 0 then some [s1 * 4 + s2 / 16] else none
      | _, _ => none
  | [c1, c2, c3] =>
      match sextetVal c1, sextetVal c2, sextetVal c3 with
      | some s1, some s2, some s3 =>
          if s3 % 4 = 0 then some [s1 * 4 + s2 / 16, s2 % 16 * 16 + s3 / 4] else none
      | _, _, _ => none
  | c1 :: c2 :: c3 :: c4 :: rest =>
      match sextetVal c1, sextetVal c2, sextetVal c3, sextetVal c4, b64Decode rest with
      | some s1, some s2, some s3, some s4, some bs =>
          some ((s1 * 4 + s2 / 16) :: (s2 % 16 * 16 + s3 / 4) :: (s3 % 4 * 64 + s4) :: bs)
      | _, _, _, _, _ => none

/-- Base64 encode, no padding (canonical form; used to build inputs and to
state what the pipeline accepts). -/
def b64Encode : List Nat → List Nat
  | [] => []
  | [b1] => [sextetChar (b1 / 4), sextetChar (b1 % 4 * 16)]
  | [b1, b2] =>
      [sextetChar (b1 / 4), sextetChar (b1 % 4 * 16 + b2 / 16), sextetChar (b2 % 16 * 4)]
  | b1 :: b2 :: b3 :: rest =>
      sextetChar (b1 / 4) :: sextetChar (b1 % 4 * 16 + b2 / 16) ::
        sextetChar (b2 % 16 * 4 + b3 / 64) :: sextetChar (b3 % 64) :: b64Encode rest

theorem sextetVal_sextetChar : ∀ s, s < 64 → sextetVal (sextetChar s) = some s := by
  decide

theorem b64_roundtrip : ∀ bs : List Nat, (∀ b ∈ bs, b < 256) →
    b64Decode (b64Encode bs) = some bs
  | [], _ => by simp [b64Encode, b64Decode]
  | [b1], h => by
      have hb1 : b1 < 256 := h b1 (by simp)
      have h1 := sextetVal_sextetChar (b1 / 4) (by omega)
      have h2 := sextetVal_sextetChar (b1 % 4 * 16) (by omega)
      simp only [b64Encode, b64Decode, h1, h2]
      rw [if_pos (by omega)]
      simp only [Option.some.injEq, List.cons.injEq, and_true]
      omega
  | [b1, b2], h => by
      have hb1 : b1 < 256 := h b1 (by simp)
      have hb2 : b2 < 256 := h b2 (by simp)
      have h1 := sextetVal_sextetChar (b1 / 4) (by omega)
      have h2 := sextetVal_sextetChar (b1 % 4 * 16 + b2 / 16) (by omega)
      have h3 := sextetVal_sextetChar (b2 % 16 * 4) (by omega)
      simp only [b64Encode, b64Decode, h1, h2, h3]
      rw [if_pos (by omega)]
      simp only [Option.some.injEq, List.cons.injEq, and_true]
      omega
  | [b1, b2, b3], h => by
      have hb1 : b1 < 256 := h b1 (by simp)
      have hb2 : b2 < 256 := h b2 (by simp)
      have hb3 : b3 < 256 := h b3 (by simp)
      have h1 := sextetVal_sextetChar (b1 / 4) (by omega)
      have h2 := sextetVal_sextetChar (b1 % 4 * 16 + b2 / 16) (by omega)
      have h3 := sextetVal_sextetChar (b2 % 16 * 4 + b3 / 64) (by omega)
      have h4 := sextetVal_sextetChar (b3 % 64) (by omega)
      simp only [b64Encode, b64Decode, h1, h2, h3, h4]
      simp only [Option.some.injEq, List.cons.injEq, and_true]
      omega
  | b1 :: b2 :: b3 :: b4 :: rest, h => by
      have hb1 : b1 < 256 := h b1 (by simp)
      have hb2 : b2 < 256 := h b2 (by simp)
      have hb3 : b3 < 256 := h b3 (by simp)
      have h1 := sextetVal_sextetChar (b1 / 4) (by omega)
      have h2 := sextetVal_sextetChar (b1 % 4 * 16 + b2 / 16) (by omega)
      have h3 := sextetVal_sextetChar (b2 % 16 * 4 + b3 / 64) (by omega)
      have h4 := sextetVal_sextetChar (b3 % 64) (by omega)
      have hrec := b64_roundtrip (b4 :: rest) (fun b hb => h b (by simp at hb ⊢; tauto))
      simp only [b64Encode, b64Decode, h1, h2, h3, h4, hrec]
      simp only [Option.some.injEq, List.cons.injEq, and_true, true_and, and_self,
        eq_self_iff_true]
      omega

theorem b64Decode_valid : ∀ (cs bs : List Nat), b64Decode cs = some bs →
    ∀ c ∈ cs, (sextetVal c).isSome = true
  | [], _, _, c, hc => by simp at hc
  | [c1], bs, h, c, hc => by simp [b64Decode] at h
  | [c1, c2], bs, h, c, hc => by
      rw [b64Decode] at h
      split at h
      · rename_i s1 s2 h1 h2
        simp at hc
        rcases hc with rfl | rfl <;> simp [h1, h2]
      · exact Option.noConfusion h
  | [c1, c2, c3], bs, h, c, hc => by
      rw [b64Decode] at h
      split at h
      · rename_i s1 s2 s3 h1 h2 h3
        simp at hc
        rcases hc with rfl | rfl | rfl <;> simp [h1, h2, h3]
      · exact Option.noConfusion h
  | c1 :: c2 :: c3 :: c4 :: rest, bs, h, c, hc => by
      rw [b64Decode] at h
      split at h
      · rename_i s1 s2 s3 s4 bs2 h1 h2 h3 h4 h5
        simp at hc
        rcases hc with rfl | rfl | rfl | rfl | hmem
        · simp [h1]
        · simp [h2]
        · simp [h3]
        · simp [h4]
        · exact b64Decode_valid rest bs2 h5 c hmem
      · exact Option.noConfusion h

/-! ## Schema Model (spec §4.1)

Modelled from the spec: the SDK's `VersionedModuleSchema` with, per
contract, per receive method, the parameter layout and the optional
return-value layout; the binary parser (`concordium_std::from_bytes`)
rejects unknown versions; lookups fail when the contract or method is
absent. None of this code is under src/ (src only calls it). -/

structure FunctionSchemas where
  parameter : Option TypeLayout
  returnValue : Option TypeLayout
deriving Repr

structure ContractSchema where
  receiveMethods : List (String × FunctionSchemas)
deriving Repr

structure VersionedModuleSchema where
  version : Nat
  contracts : List (String × ContractSchema)
deriving Repr

/-- Modelled from the spec (§4.1): `lookup_parameter_layout` — the
`get_receive_param_schema` call of the source; fails (none) when the
contract or method is absent or the method declares no parameter schema. -/
def get_receive_param_schema (s : VersionedModuleSchema) (contract method : String) :
    Option TypeLayout :=
  match List.lookup contract s.contracts with
  | some cs =>
      match List.lookup method cs.receiveMethods with
      | some fs => fs.parameter
      | none => none
  | none => none

/-- Modelled from the spec (§4.1): `lookup_return_layout` — the
`get_receive_return_value_schema` call of the source. -/
def get_receive_return_value_schema (s : VersionedModuleSchema) (contract method : String) :
    Option TypeLayout :=
  match List.lookup contract s.contracts with
  | some cs =>
      match List.lookup method cs.receiveMethods with
      | some fs => fs.returnValue
      | none => none
  | none => none

/-- Parse a length-prefixed name: one count byte then that many ASCII
bytes. -/
def parseName : List Nat → Option (String × List Nat)
  | [] => none
  | n :: rest =>
      if n ≤ rest.length then
        some (String.mk ((rest.take n).map (fun b => Char.ofNat b)), rest.drop n)
      else none

mutual

/-- Modelled from the spec (§3, §4.1): recursive-descent parser for the
binary form of a `TypeLayout` (fuel-bounded; one tag byte per node). -/
def parseLayout : Nat → List Nat → Option (TypeLayout × List Nat)
  | 0, _ => none
  | _ + 1, [] => none
  | fuel + 1, tag :: rest =>
      match tag with
      | 0 => match rest with | w :: r => some (.uintN w, r) | [] => none
      | 1 => match rest with | w :: r => some (.intN w, r) | [] => none
      | 2 => some (.boolLayout, rest)
      | 3 => match rest with | n :: r => some (.byteArray n, r) | [] => none
      | 4 => match rest with | p :: r => some (.strLayout p, r) | [] => none
      | 5 =>
          match rest with
          | p :: r =>
              match parseLayout fuel r with
              | some (elem, r2) => some (.seqOf p elem, r2)
              | none => none
          | [] => none
      | 6 =>
          match parseLayout fuel rest with
          | some (elem, r2) => some (.optionOf elem, r2)
          | none => none
      | 7 =>
          match rest with
          | n :: r =>
              match parseNamedLayouts fuel n r with
              | some (fields, r2) => some (.structOf fields, r2)
              | none => none
          | [] => none
      | 8 =>
          match rest with
          | n :: r =>
              match parseNamedLayouts fuel n r with
              | some (vars, r2) => some (.enumOf vars, r2)
              | none => none
          | [] => none
      | _ => none

/-- Parse `count` name/layout pairs (struct fields or enum variants). -/
def parseNamedLayouts : Nat → Nat → List Nat → Option (List (String × TypeLayout) × List Nat)
  | 0, _, _ => none
  | _ + 1, 0, bytes => some ([], bytes)
  | fuel + 1, count + 1, bytes =>
      match parseName bytes with
      | some (nm, r1) =>
          match parseLayout fuel r1 with
          | some (lay, r2) =>
              match parseNamedLayouts fuel count r2 with
              | some (xs, r3) => some ((nm, lay) :: xs, r3)
              | none => none
          | none => none
      | none => none

end

/-- Parse an optional layout: tag byte 0 (absent) or 1 followed by the
layout. -/
def parseOptionLayout (bytes : List Nat) : Option (Option TypeLayout × List Nat) :=
  match bytes with
  | 0 :: r => some (none, r)
  | 1 :: r =>
      match parseLayout r.length r with
      | some (lay, r2) => some (some lay, r2)
      | none => none
  | _ => none

/-- Parse `count` receive methods: name, optional parameter layout,
optional return-value layout. -/
def parseMethods : Nat → List Nat → Option (List (String × FunctionSchemas) × List Nat)
  | 0, bytes => some ([], bytes)
  | count + 1, bytes =>
      match parseName bytes with
      | some (nm, r1) =>
          match parseOptionLayout r1 with
          | some (plo, r2) =>
              match parseOptionLayout r2 with
              | some (rlo, r3) =>
                  match parseMethods count r3 with
                  | some (ms, r4) => some ((nm, ⟨plo, rlo⟩) :: ms, r4)
                  | none => none
              | none => none
          | none => none
      | none => none

/-- Parse `count` contracts: name, method count byte, methods. -/
def parseContracts : Nat → List Nat → Option (List (String × ContractSchema) × List Nat)
  | 0, bytes => some ([], bytes)
  | count + 1, bytes =>
      match parseName bytes with
      | some (nm, r1) =>
          match r1 with
          | mcount :: r2 =>
              match parseMethods mcount r2 with
              | some (ms, r3) =>
                  match parseContracts count r3 with
                  | some (cs, r4) => some ((nm, ⟨ms⟩) :: cs, r4)
                  | none => none
              | none => none
          | [] => none
      | none => none

/-- Modelled from the spec (§4.1): `parse(bytes) -> VersionedModuleSchema`,
the SDK's `from_bytes::<VersionedModuleSchema>`. The format is versioned:
the leading version byte must be a known version (0–3) or parsing fails —
the parser rejects unknown versions rather than guess a layout. -/
def parseVersionedModuleSchema (bytes : List Nat) : Option VersionedModuleSchema :=
  match bytes with
  | v :: rest =>
      if v ≤ 3 then
        match rest with
        | ccount :: r2 =>
            match parseContracts ccount r2 with
            | some (cs, []) => some ⟨v, cs⟩
            | _ => none
        | [] => none
      else none
  | [] => none

/-- Schema-file processing exactly as in main (src/src/main.rs lines
169–174): the file bytes are unconditionally base64-decoded
(`STANDARD_NO_PAD.decode`, propagated by `?` on `schema_source`) and only
the decoded bytes are parsed as a schema. -/
def readSchemaFromFileBytes (bytes : List Nat) : Except CliError VersionedModuleSchema :=
  match b64Decode bytes with
  | none => .error .base64DecodeError
  | some decoded =>
      match parseVersionedModuleSchema decoded with
      | some s => .ok s
      | none => .error .schemaParseError

/-- Concrete well-formed schema bytes: version 3, one contract "c" with one
method "m" whose parameter layout is uint32 and which declares no return
layout. Several of its bytes (3, 1, 0, 4, …) are outside the base64
alphabet. -/
def rawSchemaBytes : List Nat := [3, 1, 1, 99, 1, 1, 109, 1, 0, 4, 0]

/-- Boolean test that a schema-stage result is exactly the base64 decode
error. -/
def isBase64DecodeError : Except CliError VersionedModuleSchema → Bool
  | .error .base64DecodeError => true
  | _ => false

/-- Counterexample to C8: these schema bytes are well-formed (the schema
parser accepts them), yet the schema-file stage rejects the file holding
them raw — the base64 decode is unconditional — while it accepts the file
holding their base64 encoding. -/
theorem C8_counterexample :
    (parseVersionedModuleSchema rawSchemaBytes).isSome = true ∧
      isBase64DecodeError (readSchemaFromFileBytes rawSchemaBytes) = true ∧
      (readSchemaFromFileBytes (b64Encode rawSchemaBytes)).isOk = true := by
  decide

/-- C8 amended: schema-file parsing succeeds only for base64-encoded
content. Feeding the base64 encoding (STANDARD_NO_PAD) of any byte string
to the schema stage yields exactly the parse of the underlying bytes, while
a file holding raw bytes is rejected by the unconditional base64 decode
whenever any byte lies outside the base64 alphabet. -/
theorem C8_base64_required (bs : List Nat) (hb : ∀ b ∈ bs, b < 256) :
    readSchemaFromFileBytes (b64Encode bs) =
      (match parseVersionedModuleSchema bs with
       | some s => Except.ok s
       | none => Except.error CliError.schemaParseError) ∧
      ((∃ c ∈ bs, sextetVal c = none) →
        readSchemaFromFileBytes bs = .error .base64DecodeError) := by
  constructor
  · unfold readSchemaFromFileBytes
    rw [b64_roundtrip bs hb]
  · rintro ⟨c, hc, hinv⟩
    unfold readSchemaFromFileBytes
    cases hdec : b64Decode bs with
    | none => rfl
    | some decoded =>
        have hval := b64Decode_valid bs decoded hdec c hc
        rw [hinv] at hval
        simp at hval

/-- Witness for the amended C8 at the concrete schema bytes. -/
theorem C8_base64_required_witness :
    (∀ b ∈ rawSchemaBytes, b < 256) ∧
      (readSchemaFromFileBytes (b64Encode rawSchemaBytes) =
        (match parseVersionedModuleSchema rawSchemaBytes with
         | some s => Except.ok s
         | none => Except.error CliError.schemaParseError) ∧
        ((∃ c ∈ rawSchemaBytes, sextetVal c = none) →
          readSchemaFromFileBytes rawSchemaBytes = .error .base64DecodeError)) :=
  ⟨by decide, C8_base64_required rawSchemaBytes (by decide)⟩

/-! ## CLI surface and transaction data model (src/src/main.rs lines 26–102) -/

inductive TransactionType where
  | mint
  | transfer
  | tokenMetadata
deriving Repr, DecidableEq

structure ContractAddress where
  index : Nat
  subindex : Nat
deriving Repr, DecidableEq

inductive Action where
  /-- Deploy the module. -/
  | deploy (modulePath : String)
  /-- Initialize the CIS-2 NFT contract. -/
  | init (moduleRef : Nat)
  /-- Update the contract using JSON parameters and a schema. -/
  | updateWithSchema (parameter : Option String) (schema : String)
      (address : ContractAddress) (transactionTypeX : TransactionType)
deriving Repr

/-- Node connection, key path and the action input struct. -/
structure App where
  keysPath : String
  action : Action

/-- Account keys and sender address loaded from the key file (signing
material itself is an external collaborator, spec §6). -/
structure WalletAccount where
  address : Nat
deriving Repr, DecidableEq

structure InitContractPayload where
  amount : Nat
  modRef : Nat
  initName : String
  param : List Nat
deriving Repr, DecidableEq

structure UpdateContractPayload where
  amount : Nat
  address : ContractAddress
  receiveName : String
  message : List Nat
deriving Repr, DecidableEq

inductive Payload where
  | deployModule (wasmModule : List Nat)
  | initContract (payload : InitContractPayload)
  | updateContract (payload : UpdateContractPayload)
deriving Repr, DecidableEq

/-- Modelled from the spec (§3 TransactionIntent, §4.3): the signed account
transaction produced by `send::init_contract` / `send::update_contract` /
`send::deploy_module`; the signature itself is out of scope (§1). -/
structure AccountTransaction where
  sender : Nat
  nonce : Nat
  expiry : Nat
  energy : Nat
  payload : Payload
deriving Repr, DecidableEq

/-- Modelled from the spec (§4.3): `send::init_contract`. Pure construction,
cannot fail. -/
def send_init_contract (_keys : WalletAccount) (sender nonce expiry : Nat)
    (payload : InitContractPayload) (energy : Nat) : AccountTransaction :=
  ⟨sender, nonce, expiry, energy, .initContract payload⟩

/-- Modelled from the spec (§4.3): `send::update_contract`. -/
def send_update_contract (_keys : WalletAccount) (sender nonce expiry : Nat)
    (payload : UpdateContractPayload) (energy : Nat) : AccountTransaction :=
  ⟨sender, nonce, expiry, energy, .updateContract payload⟩

/-- Modelled from the spec (§4.3): `send::deploy_module`; its energy is
computed by the SDK and irrelevant here, recorded as 0. -/
def send_deploy_module (_keys : WalletAccount) (sender nonce expiry : Nat)
    (wasmModule : List Nat) : AccountTransaction :=
  ⟨sender, nonce, expiry, 0, .deployModule wasmModule⟩

/-- Modelled from the SDK's parameter-size check behind
`OwnedParameter::try_from` (spec "an encoded parameter rejected by the
parameter-size check"): parameters are limited to 65535 bytes. -/
def maxParameterLen : Nat := 65535

/-- `OwnedParameter::try_from`: fails when the byte length exceeds the
maximum parameter size. -/
def owned_parameter_try_from (bytes : List Nat) : Option (List Nat) :=
  if bytes.length ≤ maxParameterLen then some bytes else none

/-- The decoding+rendering half of the SDK's `to_json_string_pretty`
(modelled from the spec §4.2/§4.5): decode the returned bytes with the given
layout; trailing bytes after a top-level return-value decode are not an
error. Rendering to text is Display-level and kept structured. -/
def to_json_string_pretty (layout : TypeLayout) (bytes : List Nat) :
    Option StructuredValue :=
  match decodeValue layout bytes with
  | some (v, _) => some v
  | none => none

/-- The ledger's report of what happened (spec §3 FinalizedEffect); the
variants `main` does not match explicitly (its `_ => ()` arm) are collapsed
into `otherEffect`. -/
inductive AccountTransactionEffects where
  | moduleDeployed (moduleRef : Nat)
  | contractInitialized (address : ContractAddress)
  | contractUpdateIssued (effects : List Nat)
  | none (transactionType : Option TransactionType) (rejectReason : Nat)
  | otherEffect
deriving Repr

inductive BlockItemSummaryDetails where
  | accountTransaction (effects : AccountTransactionEffects)
  | accountCreation
  | update
deriving Repr

structure BlockItemSummary where
  details : BlockItemSummaryDetails
deriving Repr

inductive InvokeContractResult where
  | success (returnValue : Option (List Nat))
  | failure
deriving Repr

structure ContractContext where
  invoker : Option Nat
  contract : ContractAddress
  amount : Nat
  method : String
  parameter : List Nat
  energy : Nat
deriving Repr, DecidableEq

inductive BlockIdentifier where
  | best
deriving Repr, DecidableEq

/-- One outbound RPC interaction of a run, in order (spec §6 RPC endpoint). -/
inductive RpcCall where
  | getAccountInfo (account : Nat) (block : BlockIdentifier)
  | invokeInstance (block : BlockIdentifier) (context : ContractContext)
  | sendBlockItem (item : AccountTransaction)
  | waitUntilFinalized (hash : Nat)
deriving Repr, DecidableEq

/-- Environment: one run's responses from the external collaborators — the
node RPC, the file system, the key-file parser and the JSON parser (spec §6).
`none` in a response slot is that collaborator failing. -/
structure Env where
  connectOk : Bool
  keysFile : Option WalletAccount
  accountNonce : Option Nat
  now : Nat
  parameterFile : Option (List Nat)
  parameterJson : Option StructuredValue
  schemaFile : Option (List Nat)
  moduleFile : Option (List Nat)
  moduleParsed : Option (List Nat)
  invokeResult : Option InvokeContractResult
  sendResult : Option Nat
  finalization : Option (Nat × BlockItemSummary)

/-- The lines `main` prints, structured (formatting is Display-level).
`updateSubEffects` is the line a sub-effect report would be — the source
never emits it. -/
inductive OutputLine where
  | transactionSubmitted (hash nonce : Nat)
  | transactionFinalized (block : Nat)
  | moduleRefIs (moduleRef : Nat)
  | contractAddressIs (address : ContractAddress)
  | rejectionOutcome (rejectReason : Nat)
  | decodedReturnValue (value : StructuredValue)
  | updateSubEffects (effects : List Nat)
  | invokeFailedDiagnostic
  | noStateChanges
deriving Repr

/-- The three `.unwrap()` sites of `main` that can abort the process with a
panic instead of a contextual error. -/
inductive PanicSite where
  /-- `parameter.unwrap()` on a missing parameter path (line 165). -/
  | unwrapParameterPathNone
  /-- `OwnedParameter::try_from(..).unwrap()` on an oversized encoded
  parameter (lines 181, 205, 241). -/
  | unwrapParameterSize (transactionTypeX : TransactionType)
  /-- `return_value.unwrap()` on a successful invoke with no return value
  (line 251). -/
  | unwrapReturnValueNone
deriving Repr, DecidableEq

/-- Process exit: clean success, a contextual error (anyhow: non-zero exit
with a stage-naming message), or a panic (non-zero exit, no stage context). -/
inductive ExitOutcome where
  | success
  | failure (e : CliError)
  | panicked (site : PanicSite)
deriving Repr, DecidableEq

structure RunResult where
  exit : ExitOutcome
  output : List OutputLine
  trace : List RpcCall

/-- Source lines 98–102: a built transaction that changes state, or none
(the read-only TokenMetadata path). -/
inductive TransactionResult where
  | stateChanging (tx : AccountTransaction)
  | none
deriving Repr, DecidableEq

/-- Result of the `let tx = match app.action { .. }` block (source line 135):
either the run already ended (error or panic), or a `TransactionResult`
together with the output printed and the RPC calls made while building. -/
inductive BuildResult where
  | fail (e : ExitOutcome) (out : List OutputLine) (tr : List RpcCall)
  | built (tx : TransactionResult) (out : List OutputLine) (tr : List RpcCall)

/-- The contract and method names hard-coded in the source. -/
def tutorialContract : String := "rust_sdk_minting_tutorial"

/-- The `Action::UpdateWithSchema` match on the transaction type (source
lines 176–263): look up the schemas, serialize the parameter, and either
build an update transaction (Mint, Transfer) or perform the read-only
invoke and print its decoded return value (TokenMetadata). -/
def updateBranch (env : Env) (keys : WalletAccount) (nonce expiry : Nat)
    (address : ContractAddress) (transactionTypeX : TransactionType)
    (schema : VersionedModuleSchema) (parameter : StructuredValue) : BuildResult :=
  match transactionTypeX with
  | .mint =>
      match get_receive_param_schema schema tutorialContract "mint" with
      | none => .fail (.failure .schemaLookupError) [] []
      | some paramSchema =>
          match encodeValue paramSchema parameter with
          | none => .fail (.failure .valueEncodeError) [] []
          | some serializedParameter =>
              match owned_parameter_try_from serializedParameter with
              | none => .fail (.panicked (.unwrapParameterSize .mint)) [] []
              | some message =>
                  .built (.stateChanging (send_update_contract keys keys.address nonce
                    expiry
                    { amount := 0, address := address,
                      receiveName := "rust_sdk_minting_tutorial.mint",
                      message := message } 10000)) [] []
  | .transfer =>
      match get_receive_param_schema schema tutorialContract "transfer" with
      | none => .fail (.failure .schemaLookupError) [] []
      | some paramSchema =>
          match encodeValue paramSchema parameter with
          | none => .fail (.failure .valueEncodeError) [] []
          | some serializedParameter =>
              match owned_parameter_try_from serializedParameter with
              | none => .fail (.panicked (.unwrapParameterSize .transfer)) [] []
              | some message =>
                  .built (.stateChanging (send_update_contract keys keys.address nonce
                    expiry
                    { amount := 0, address := address,
                      receiveName := "rust_sdk_minting_tutorial.transfer",
                      message := message } 10000)) [] []
  | .tokenMetadata =>
      match get_receive_param_schema schema tutorialContract "tokenMetadata" with
      | none => .fail (.failure .schemaLookupError) [] []
      | some paramSchema =>
          match get_receive_return_value_schema schema tutorialContract "tokenMetadata" with
          | none => .fail (.failure .schemaLookupError) [] []
          | some rvSchema =>
              match encodeValue paramSchema parameter with
              | none => .fail (.failure .valueEncodeError) [] []
              | some serializedParameter =>
                  match owned_parameter_try_from serializedParameter with
                  | none => .fail (.panicked (.unwrapParameterSize .tokenMetadata)) [] []
                  | some par =>
                      let context : ContractContext :=
                        { invoker := none, contract := address, amount := 0,
                          method := "rust_sdk_minting_tutorial.tokenMetadata",
                          parameter := par, energy := 1000000 }
                      match env.invokeResult with
                      | none => .fail (.failure (.rpcError .invokeInstance)) []
                          [.invokeInstance .best context]
                      | some info =>
                          match info with
                          | .success returnValue =>
                              match returnValue with
                              | none => .fail (.panicked .unwrapReturnValueNone) []
                                  [.invokeInstance .best context]
                              | some bytes =>
                                  match to_json_string_pretty rvSchema bytes with
                                  | none => .fail (.failure .valueDecodeError) []
                                      [.invokeInstance .best context]
                                  | some v =>
                                      .built .none [.decodedReturnValue v]
                                        [.invokeInstance .best context]
                          | .failure =>
                              .built .none [.invokeFailedDiagnostic]
                                [.invokeInstance .best context]

/-- The `let tx = match app.action { .. }` block of `main` (source lines
135–277). -/
def buildPhase (app : App) (env : Env) (keys : WalletAccount) (nonce expiry : Nat) :
    BuildResult :=
  match app.action with
  | .init modRef =>
      let payload : InitContractPayload :=
        { amount := 0, modRef := modRef,
          initName := "init_rust_sdk_minting_tutorial", param := [] }
      .built (.stateChanging (send_init_contract keys keys.address nonce expiry
        payload 10000)) [] []
  | .updateWithSchema parameterPath _schemaPath address transactionTypeX =>
      match parameterPath with
      | none => .fail (.panicked .unwrapParameterPathNone) [] []
      | some _ =>
          match env.parameterFile with
          | none => .fail (.failure .unableToReadParameterFile) [] []
          | some _ =>
              match env.parameterJson with
              | none => .fail (.failure .unableToParseParameterJson) [] []
              | some parameter =>
                  match env.schemaFile with
                  | none => .fail (.failure .unableToReadSchemaFile) [] []
                  | some schemaBytes =>
                      match readSchemaFromFileBytes schemaBytes with
                      | .error e => .fail (.failure e) [] []
                      | .ok schema =>
                          updateBranch env keys nonce expiry address transactionTypeX
                            schema parameter
  | .deploy _modulePath =>
      match env.moduleFile with
      | none => .fail (.failure .couldNotReadContractModule) [] []
      | some _ =>
          match env.moduleParsed with
          | none => .fail (.failure .moduleDeserialError) [] []
          | some wasmModule =>
              .built (.stateChanging (send_deploy_module keys keys.address nonce expiry
                wasmModule)) [] []

/-- The Outcome Interpreter (source lines 291–311): what `main` prints for a
finalized summary. The source handles `ModuleDeployed`, `ContractInitialized`
and `None` and sends every other effect — including `ContractUpdateIssued` —
to a `_ => ()` arm that prints nothing. -/
def reportLines (bs : BlockItemSummary) : List OutputLine :=
  match bs.details with
  | .accountTransaction effects =>
      match effects with
      | .moduleDeployed moduleRef => [.moduleRefIs moduleRef]
      | .contractInitialized address => [.contractAddressIs address]
      | .none _ rejectReason => [.rejectionOutcome rejectReason]
      | _ => []
  | .accountCreation => []
  | .update => []

/-- The whole of `main` (source lines 107–319) over an environment: connect,
load keys, fetch the nonce once at the best block, compute expiry = now +
300, build the transaction, then — for a state-changing result — submit it
once and await finalization with no client-side deadline, reporting the
finalized effect; for `TransactionResult::None` print the graceful-exit
line. The returned `RunResult` carries the exit outcome, the printed lines
and the ordered RPC trace. -/
def run (app : App) (env : Env) : RunResult :=
  if env.connectOk = false then ⟨.failure .cannotConnect, [], []⟩
  else
    match env.keysFile with
    | none => ⟨.failure .couldNotReadKeysFile, [], []⟩
    | some keys =>
        match env.accountNonce with
        | none => ⟨.failure (.rpcError .getAccountInfo), [],
            [.getAccountInfo keys.address .best]⟩
        | some nonce =>
            let expiry := env.now + 300
            match buildPhase app env keys nonce expiry with
            | .fail e out tr =>
                ⟨e, out, RpcCall.getAccountInfo keys.address .best :: tr⟩
            | .built tx out tr =>
                match tx with
                | .stateChanging result =>
                    match env.sendResult with
                    | none =>
                        ⟨.failure (.rpcError .sendBlockItem), out,
                          RpcCall.getAccountInfo keys.address .best :: tr ++
                            [.sendBlockItem result]⟩
                    | some transactionHash =>
                        match env.finalization with
                        | none =>
                            ⟨.failure (.rpcError .waitUntilFinalized),
                              out ++ [.transactionSubmitted transactionHash nonce],
                              RpcCall.getAccountInfo keys.address .best :: tr ++
                                [.sendBlockItem result,
                                  .waitUntilFinalized transactionHash]⟩
                        | some (bh, bs) =>
                            ⟨.success,
                              out ++ [.transactionSubmitted transactionHash nonce,
                                .transactionFinalized bh] ++ reportLines bs,
                              RpcCall.getAccountInfo keys.address .best :: tr ++
                                [.sendBlockItem result,
                                  .waitUntilFinalized transactionHash]⟩
                | .none =>
                    ⟨.success, out ++ [.noStateChanges],
                      RpcCall.getAccountInfo keys.address .best :: tr⟩

/-! ## Trace and payload observations -/

def isGetAccountInfo : RpcCall → Bool
  | .getAccountInfo _ _ => true
  | _ => false

def isSendBlockItem : RpcCall → Bool
  | .sendBlockItem _ => true
  | _ => false

def isWaitUntilFinalized : RpcCall → Bool
  | .waitUntilFinalized _ => true
  | _ => false

@[simp] theorem isGetAccountInfo_gai (a : Nat) (b : BlockIdentifier) :
    isGetAccountInfo (.getAccountInfo a b) = true := rfl
@[simp] theorem isGetAccountInfo_invoke (b : BlockIdentifier) (c : ContractContext) :
    isGetAccountInfo (.invokeInstance b c) = false := rfl
@[simp] theorem isGetAccountInfo_send (it : AccountTransaction) :
    isGetAccountInfo (.sendBlockItem it) = false := rfl
@[simp] theorem isGetAccountInfo_wait (h : Nat) :
    isGetAccountInfo (.waitUntilFinalized h) = false := rfl
@[simp] theorem isSendBlockItem_gai (a : Nat) (b : BlockIdentifier) :
    isSendBlockItem (.getAccountInfo a b) = false := rfl
@[simp] theorem isSendBlockItem_invoke (b : BlockIdentifier) (c : ContractContext) :
    isSendBlockItem (.invokeInstance b c) = false := rfl
@[simp] theorem isSendBlockItem_send (it : AccountTransaction) :
    isSendBlockItem (.sendBlockItem it) = true := rfl
@[simp] theorem isSendBlockItem_wait (h : Nat) :
    isSendBlockItem (.waitUntilFinalized h) = false := rfl
@[simp] theorem isWaitUntilFinalized_gai (a : Nat) (b : BlockIdentifier) :
    isWaitUntilFinalized (.getAccountInfo a b) = false := rfl
@[simp] theorem isWaitUntilFinalized_invoke (b : BlockIdentifier) (c : ContractContext) :
    isWaitUntilFinalized (.invokeInstance b c) = false := rfl
@[simp] theorem isWaitUntilFinalized_send (it : AccountTransaction) :
    isWaitUntilFinalized (.sendBlockItem it) = false := rfl
@[simp] theorem isWaitUntilFinalized_wait (h : Nat) :
    isWaitUntilFinalized (.waitUntilFinalized h) = true := rfl

/-- Amount carried by a payload: init and update payloads carry one, module
deploys do not. -/
def payloadAmount : Payload → Option Nat
  | .initContract p => some p.amount
  | .updateContract p => some p.amount
  | .deployModule _ => none

/-- Trace component of a build result. -/
def buildTrace : BuildResult → List RpcCall
  | .fail _ _ tr => tr
  | .built _ _ tr => tr

/-- The update branch's only possible RPC interaction is a single read-only
invoke at the best block. -/
theorem updateBranch_trace_only_invoke (env : Env) (keys : WalletAccount)
    (nonce expiry : Nat) (addr : ContractAddress) (t : TransactionType)
    (schema : VersionedModuleSchema) (parameter : StructuredValue) :
    ∀ c ∈ buildTrace (updateBranch env keys nonce expiry addr t schema parameter),
      ∃ ctx, c = RpcCall.invokeInstance .best ctx := by
  unfold updateBranch
  cases t
  all_goals repeat' split
  all_goals intro c hc
  all_goals simp [buildTrace] at hc
  all_goals exact ⟨_, hc⟩

/-- The build phase's only possible RPC interaction is a single read-only
invoke at the best block: it never fetches account info, submits a block
item, or waits for finalization. -/
theorem buildPhase_trace_only_invoke (app : App) (env : Env) (keys : WalletAccount)
    (nonce expiry : Nat) :
    ∀ c ∈ buildTrace (buildPhase app env keys nonce expiry),
      ∃ ctx, c = RpcCall.invokeInstance .best ctx := by
  rcases app with ⟨kp, action⟩
  cases action with
  | init modRef => simp [buildPhase, buildTrace]
  | deploy mp =>
      simp only [buildPhase]
      repeat' split
      all_goals simp [buildTrace]
  | updateWithSchema pp sp addr t =>
      cases pp with
      | none => simp [buildPhase, buildTrace]
      | some p =>
          cases hpf : env.parameterFile with
          | none => simp [buildPhase, hpf, buildTrace]
          | some pb =>
              cases hpj : env.parameterJson with
              | none => simp [buildPhase, hpf, hpj, buildTrace]
              | some pj =>
                  cases hsf : env.schemaFile with
                  | none => simp [buildPhase, hpf, hpj, hsf, buildTrace]
                  | some sb =>
                      cases hsch : readSchemaFromFileBytes sb with
                      | error e => simp [buildPhase, hpf, hpj, hsf, hsch, buildTrace]
                      | ok schema =>
                          have hu := updateBranch_trace_only_invoke env keys nonce expiry
                            addr t schema pj
                          simpa [buildPhase, hpf, hpj, hsf, hsch] using hu

theorem countP_eq_zero_of_only_invoke {tr : List RpcCall}
    (h : ∀ c ∈ tr, ∃ ctx, c = RpcCall.invokeInstance .best ctx) :
    tr.countP isGetAccountInfo = 0 ∧ tr.countP isSendBlockItem = 0 ∧
      tr.countP isWaitUntilFinalized = 0 := by
  refine ⟨List.countP_eq_zero.mpr ?_, List.countP_eq_zero.mpr ?_,
    List.countP_eq_zero.mpr ?_⟩ <;>
    (intro c hc
     obtain ⟨ctx, rfl⟩ := h c hc
     simp [isGetAccountInfo, isSendBlockItem, isWaitUntilFinalized])

/-! ## C2: reporting of contract-update effects -/

/-- C2 amended: when the finalized effect is `ContractUpdateIssued`, the run
succeeds but prints only the submission and finalization lines — the list of
sub-effects is silently omitted, because the source's match sends
`ContractUpdateIssued` to its `_ => ()` arm. -/
theorem C2_update_effects_silently_omitted (app : App) (env : Env)
    (keys : WalletAccount) (nonce transactionHash bh : Nat)
    (tx : AccountTransaction) (out : List OutputLine) (tr : List RpcCall)
    (effects : List Nat)
    (hc : env.connectOk = true) (hk : env.keysFile = some keys)
    (hn : env.accountNonce = some nonce)
    (hb : buildPhase app env keys nonce (env.now + 300) =
      .built (.stateChanging tx) out tr)
    (hs : env.sendResult = some transactionHash)
    (hf : env.finalization = some (bh,
      ⟨.accountTransaction (.contractUpdateIssued effects)⟩)) :
    (run app env).exit = .success ∧
      (run app env).output =
        out ++ [.transactionSubmitted transactionHash nonce,
          .transactionFinalized bh] := by
  unfold run
  simp [hc, hk, hn, hb, hs, hf, reportLines]

def appC2 : App := ⟨"keys.json", .init 77⟩

def envC2 : Env :=
  { connectOk := true, keysFile := some ⟨5⟩, accountNonce := some 3, now := 1000,
    parameterFile := none, parameterJson := none, schemaFile := none,
    moduleFile := none, moduleParsed := none, invokeResult := none,
    sendResult := some 11,
    finalization := some (22,
      ⟨.accountTransaction (.contractUpdateIssued [1, 2, 3])⟩) }

/-- Counterexample to C2: a finalized contract update whose summary carries
the sub-effect list `[1, 2, 3]`, yet the printed report holds only the
submission and finalization lines — no sub-effect line at all — and the run
exits successfully. -/
theorem C2_counterexample :
    envC2.finalization = some (22,
      ⟨.accountTransaction (.contractUpdateIssued [1, 2, 3])⟩) ∧
      (run appC2 envC2).output =
        [.transactionSubmitted 11 3, .transactionFinalized 22] ∧
      (∀ line ∈ (run appC2 envC2).output, ∀ es, line ≠ .updateSubEffects es) ∧
      (run appC2 envC2).exit = .success := by
  refine ⟨rfl, rfl, ?_, rfl⟩
  intro line hline es
  simp [run, appC2, envC2, buildPhase, reportLines] at hline
  rcases hline with rfl | rfl <;> simp

/-- Witness for the amended C2 at the concrete run of `envC2`. -/
theorem C2_update_effects_silently_omitted_witness :
    (run appC2 envC2).exit = .success ∧
      (run appC2 envC2).output =
        [] ++ [.transactionSubmitted 11 3, .transactionFinalized 22] :=
  C2_update_effects_silently_omitted appC2 envC2 ⟨5⟩ 3 11 22 _ [] [] [1, 2, 3]
    rfl rfl rfl rfl rfl rfl

/-! ## C3: a ledger rejection is a successful, fully reported run -/

/-- C3: when the transaction finalizes with effect `None` and a rejection
reason, the CLI prints that reason and the process still exits successfully:
a ledger-reported rejection is not a failure of this system. -/
theorem C3_ledger_rejection_is_success (app : App) (env : Env)
    (keys : WalletAccount) (nonce transactionHash bh : Nat)
    (tx : AccountTransaction) (out : List OutputLine) (tr : List RpcCall)
    (ttype : Option TransactionType) (reason : Nat)
    (hc : env.connectOk = true) (hk : env.keysFile = some keys)
    (hn : env.accountNonce = some nonce)
    (hb : buildPhase app env keys nonce (env.now + 300) =
      .built (.stateChanging tx) out tr)
    (hs : env.sendResult = some transactionHash)
    (hf : env.finalization = some (bh,
      ⟨.accountTransaction (.none ttype reason)⟩)) :
    (run app env).exit = .success ∧
      OutputLine.rejectionOutcome reason ∈ (run app env).output := by
  unfold run
  simp [hc, hk, hn, hb, hs, hf, reportLines]

def appC3 : App := ⟨"keys.json", .init 77⟩

def envC3 : Env :=
  { connectOk := true, keysFile := some ⟨5⟩, accountNonce := some 3, now := 1000,
    parameterFile := none, parameterJson := none, schemaFile := none,
    moduleFile := none, moduleParsed := none, invokeResult := none,
    sendResult := some 11,
    finalization := some (22,
      ⟨.accountTransaction (.none none 42)⟩) }

/-- Witness for C3 at a concrete run whose ledger-reported effect is
`None` with rejection reason 42. -/
theorem C3_ledger_rejection_is_success_witness :
    (run appC3 envC3).exit = .success ∧
      OutputLine.rejectionOutcome 42 ∈ (run appC3 envC3).output :=
  C3_ledger_rejection_is_success appC3 envC3 ⟨5⟩ 3 11 22 _ [] [] none 42
    rfl rfl rfl rfl rfl rfl

/-! ## C5: no client-imposed finalization deadline -/

/-- C5: after a successful submission the client always issues exactly one
`wait_until_finalized` call and its continuation is entirely determined by
the node's response: either the node reports finality and the run succeeds
reporting the finalized effect, or the node call itself errors and that
error is propagated. There is no client-side timeout branch and no path that
abandons the wait (the error type `CliError` has no finalization-timeout
kind). -/
theorem C5_no_client_timeout (app : App) (env : Env)
    (keys : WalletAccount) (nonce transactionHash : Nat)
    (tx : AccountTransaction) (out : List OutputLine) (tr : List RpcCall)
    (hc : env.connectOk = true) (hk : env.keysFile = some keys)
    (hn : env.accountNonce = some nonce)
    (hb : buildPhase app env keys nonce (env.now + 300) =
      .built (.stateChanging tx) out tr)
    (hs : env.sendResult = some transactionHash) :
    (run app env).trace.countP isWaitUntilFinalized = 1 ∧
      (env.finalization = none →
        (run app env).exit = .failure (.rpcError .waitUntilFinalized)) ∧
      (∀ bh bs, env.finalization = some (bh, bs) →
        (run app env).exit = .success ∧
          (run app env).output = out ++ [.transactionSubmitted transactionHash nonce,
            .transactionFinalized bh] ++ reportLines bs) := by
  have htr := buildPhase_trace_only_invoke app env keys nonce (env.now + 300)
  rw [hb] at htr
  obtain ⟨-, -, hw⟩ := countP_eq_zero_of_only_invoke htr
  have hw2 : tr.countP isWaitUntilFinalized = 0 := by simpa [buildTrace] using hw
  refine ⟨?_, ?_, ?_⟩
  · unfold run
    cases hf : env.finalization with
    | none =>
        simp [hc, hk, hn, hb, hs, hf, List.countP_cons, List.countP_append, hw2]
    | some p =>
        simp [hc, hk, hn, hb, hs, hf, List.countP_cons, List.countP_append, hw2]
  · intro hf
    unfold run
    simp [hc, hk, hn, hb, hs, hf]
  · intro bh bs hf
    unfold run
    simp [hc, hk, hn, hb, hs, hf]

def appC5 : App := ⟨"keys.json", .init 77⟩

def envC5 : Env :=
  { connectOk := true, keysFile := some ⟨5⟩, accountNonce := some 3, now := 1000,
    parameterFile := none, parameterJson := none, schemaFile := none,
    moduleFile := none, moduleParsed := none, invokeResult := none,
    sendResult := some 11,
    finalization := some (22, ⟨.accountTransaction (.contractInitialized ⟨9, 0⟩)⟩) }

/-- Witness for C5 at a concrete successful submission. -/
theorem C5_no_client_timeout_witness :
    (run appC5 envC5).trace.countP isWaitUntilFinalized = 1 ∧
      (envC5.finalization = none →
        (run appC5 envC5).exit = .failure (.rpcError .waitUntilFinalized)) ∧
      (∀ bh bs, envC5.finalization = some (bh, bs) →
        (run appC5 envC5).exit = .success ∧
          (run appC5 envC5).output = [] ++ [.transactionSubmitted 11 3,
            .transactionFinalized bh] ++ reportLines bs) :=
  C5_no_client_timeout appC5 envC5 ⟨5⟩ 3 11 _ [] []
    rfl rfl rfl rfl rfl

/-! ## Characterization of a run's RPC trace -/

/-- Exhaustive description of the RPC trace of a run: empty (connect or key
loading failed); the lone nonce fetch (which then failed); or the nonce
fetch followed by the build phase's calls and, for a state-changing build,
one submission and — only if the submission succeeded — one finalization
wait. -/
theorem run_trace_characterization (app : App) (env : Env) :
    (run app env).trace = [] ∨
    (∃ keys, env.keysFile = some keys ∧ env.accountNonce = none ∧
      (run app env).trace = [RpcCall.getAccountInfo keys.address .best]) ∨
    (∃ keys nonce tr,
      env.keysFile = some keys ∧ env.accountNonce = some nonce ∧
      (∀ c ∈ tr, ∃ ctx, c = RpcCall.invokeInstance .best ctx) ∧
      ((∃ e out, buildPhase app env keys nonce (env.now + 300) = .fail e out tr ∧
          (run app env).trace = RpcCall.getAccountInfo keys.address .best :: tr) ∨
       (∃ out, buildPhase app env keys nonce (env.now + 300) = .built .none out tr ∧
          (run app env).trace = RpcCall.getAccountInfo keys.address .best :: tr) ∨
       (∃ result out,
          buildPhase app env keys nonce (env.now + 300) =
            .built (.stateChanging result) out tr ∧
          ((env.sendResult = none ∧
             (run app env).trace = RpcCall.getAccountInfo keys.address .best :: tr ++
               [RpcCall.sendBlockItem result] ∧
             (run app env).exit = .failure (.rpcError .sendBlockItem)) ∨
           (∃ hash, env.sendResult = some hash ∧
             (run app env).trace = RpcCall.getAccountInfo keys.address .best :: tr ++
               [RpcCall.sendBlockItem result,
                 RpcCall.waitUntilFinalized hash]))))) := by
  by_cases hcon : env.connectOk = false
  · left; simp [run, hcon]
  · have hcon' : env.connectOk = true := by simpa using hcon
    cases hk : env.keysFile with
    | none => left; simp [run, hcon', hk]
    | some keys =>
        cases hn : env.accountNonce with
        | none =>
            right; left
            exact ⟨keys, rfl, rfl, by simp [run, hcon', hk, hn]⟩
        | some nonce =>
            right; right
            have htr := buildPhase_trace_only_invoke app env keys nonce (env.now + 300)
            cases hb : buildPhase app env keys nonce (env.now + 300) with
            | fail e out tr =>
                rw [hb] at htr
                refine ⟨keys, nonce, tr, rfl, rfl, by simpa [buildTrace] using htr, ?_⟩
                left
                exact ⟨e, out, hb, by simp [run, hcon', hk, hn, hb]⟩
            | built tx out tr =>
                rw [hb] at htr
                cases tx with
                | none =>
                    refine ⟨keys, nonce, tr, rfl, rfl, by simpa [buildTrace] using htr, ?_⟩
                    right; left
                    exact ⟨out, hb, by simp [run, hcon', hk, hn, hb]⟩
                | stateChanging result =>
                    refine ⟨keys, nonce, tr, rfl, rfl, by simpa [buildTrace] using htr, ?_⟩
                    right; right
                    refine ⟨result, out, hb, ?_⟩
                    cases hs : env.sendResult with
                    | none =>
                        left
                        exact ⟨rfl, by simp [run, hcon', hk, hn, hb, hs],
                          by simp [run, hcon', hk, hn, hb, hs]⟩
                    | some hash =>
                        right
                        refine ⟨hash, rfl, ?_⟩
                        cases hf : env.finalization with
                        | none => simp [run, hcon', hk, hn, hb, hs, hf]
                        | some p => simp [run, hcon', hk, hn, hb, hs, hf]

/-! ## C4: one nonce fetch at the start, at-most-once submission, no retry -/

/-- C4: every run fetches account information at most once — and any fetch
is for the loaded account at the best block and is the run's first RPC
call — performs at most one submission, and when the submission fails the
run ends with that error: the submission is never retried. -/
theorem C4_nonce_once_submission_at_most_once (app : App) (env : Env) :
    (run app env).trace.countP isGetAccountInfo ≤ 1 ∧
      (run app env).trace.countP isSendBlockItem ≤ 1 ∧
      (∀ acc b, RpcCall.getAccountInfo acc b ∈ (run app env).trace →
        b = .best ∧ ∃ keys, env.keysFile = some keys ∧ acc = keys.address ∧
          (run app env).trace.head? = some (.getAccountInfo keys.address .best)) ∧
      (env.sendResult = none →
        ∀ it, RpcCall.sendBlockItem it ∈ (run app env).trace →
          (run app env).exit = .failure (.rpcError .sendBlockItem)) := by
  rcases run_trace_characterization app env with h0 | ⟨keys, hk, hn, h1⟩ |
    ⟨keys, nonce, tr, hk, hn, htr, hrest⟩
  · simp [h0]
  · refine ⟨by simp [h1], by simp [h1], ?_, ?_⟩
    · intro acc b hmem
      rw [h1] at hmem
      simp at hmem
      cases b
      exact ⟨rfl, keys, hk, hmem, by simp [h1]⟩
    · intro hsend it hmem
      rw [h1] at hmem
      simp at hmem
  · obtain ⟨hg0, hs0, hw0⟩ := countP_eq_zero_of_only_invoke htr
    have hnogai : ∀ acc b, RpcCall.getAccountInfo acc b ∉ tr := by
      intro acc b hmem
      obtain ⟨ctx, hc⟩ := htr _ hmem
      simp at hc
    have hnosend : ∀ it, RpcCall.sendBlockItem it ∉ tr := by
      intro it hmem
      obtain ⟨ctx, hc⟩ := htr _ hmem
      simp at hc
    rcases hrest with ⟨e, out, hb, hT⟩ | ⟨out, hb, hT⟩ |
      ⟨result, out, hb, ⟨hsend, hT, hexit⟩ | ⟨hash, hsend, hT⟩⟩
    · refine ⟨by simp [hT, List.countP_cons, hg0],
        by simp [hT, List.countP_cons, hs0], ?_, ?_⟩
      · intro acc b hmem
        rw [hT] at hmem
        simp at hmem
        rcases hmem with hacc | hmem
        · cases b
          exact ⟨rfl, keys, hk, hacc, by simp [hT]⟩
        · exact absurd hmem (hnogai acc b)
      · intro hsendn it hmem
        rw [hT] at hmem
        simp at hmem
        exact absurd hmem (hnosend it)
    · refine ⟨by simp [hT, List.countP_cons, hg0],
        by simp [hT, List.countP_cons, hs0], ?_, ?_⟩
      · intro acc b hmem
        rw [hT] at hmem
        simp at hmem
        rcases hmem with hacc | hmem
        · cases b
          exact ⟨rfl, keys, hk, hacc, by simp [hT]⟩
        · exact absurd hmem (hnogai acc b)
      · intro hsendn it hmem
        rw [hT] at hmem
        simp at hmem
        exact absurd hmem (hnosend it)
    · refine ⟨by simp [hT, List.countP_cons, List.countP_append, hg0],
        by simp [hT, List.countP_cons, List.countP_append, hs0], ?_, ?_⟩
      · intro acc b hmem
        rw [hT] at hmem
        simp at hmem
        rcases hmem with hacc | hmem
        · cases b
          exact ⟨rfl, keys, hk, hacc, by simp [hT]⟩
        · exact absurd hmem (hnogai acc b)
      · intro hsendn it hmem
        exact hexit
    · refine ⟨by simp [hT, List.countP_cons, List.countP_append, hg0],
        by simp [hT, List.countP_cons, List.countP_append, hs0], ?_, ?_⟩
      · intro acc b hmem
        rw [hT] at hmem
        simp at hmem
        rcases hmem with hacc | hmem
        · cases b
          exact ⟨rfl, keys, hk, hacc, by simp [hT]⟩
        · exact absurd hmem (hnogai acc b)
      · intro hsendn it hmem
        rw [hsend] at hsendn
        exact Option.noConfusion hsendn

def appC4 : App := ⟨"keys.json", .init 77⟩

def envC4 : Env :=
  { connectOk := true, keysFile := some ⟨5⟩, accountNonce := some 3, now := 1000,
    parameterFile := none, parameterJson := none, schemaFile := none,
    moduleFile := none, moduleParsed := none, invokeResult := none,
    sendResult := none, finalization := none }

/-- Witness for C4 at a concrete run whose submission is rejected by the
node: one nonce fetch, one submission attempt, the run ends with the
submission error. -/
theorem C4_nonce_once_submission_at_most_once_witness :
    (run appC4 envC4).trace.countP isGetAccountInfo ≤ 1 ∧
      (run appC4 envC4).trace.countP isSendBlockItem ≤ 1 ∧
      (∀ acc b, RpcCall.getAccountInfo acc b ∈ (run appC4 envC4).trace →
        b = .best ∧ ∃ keys, envC4.keysFile = some keys ∧ acc = keys.address ∧
          (run appC4 envC4).trace.head? = some (.getAccountInfo keys.address .best)) ∧
      (envC4.sendResult = none →
        ∀ it, RpcCall.sendBlockItem it ∈ (run appC4 envC4).trace →
          (run appC4 envC4).exit = .failure (.rpcError .sendBlockItem)) :=
  C4_nonce_once_submission_at_most_once appC4 envC4

/-! ## C9: built init/update payloads always carry amount zero -/

theorem updateBranch_amount_zero (env : Env) (keys : WalletAccount)
    (nonce expiry : Nat) (addr : ContractAddress) (t : TransactionType)
    (schema : VersionedModuleSchema) (parameter : StructuredValue)
    (result : AccountTransaction) (out : List OutputLine) (tr : List RpcCall)
    (hb : updateBranch env keys nonce expiry addr t schema parameter =
      .built (.stateChanging result) out tr) :
    ∀ amt, payloadAmount result.payload = some amt → amt = 0 := by
  unfold updateBranch at hb
  cases t
  all_goals repeat' split at hb
  all_goals first | injection hb with h1 h2 h3 | injection hb
  all_goals first | injection h1 with h4 | injection h1
  all_goals intro amt hamt
  all_goals rw [← h4] at hamt
  all_goals simp [send_update_contract, payloadAmount] at hamt
  all_goals omega

theorem buildPhase_amount_zero (app : App) (env : Env) (keys : WalletAccount)
    (nonce expiry : Nat) (result : AccountTransaction) (out : List OutputLine)
    (tr : List RpcCall)
    (hb : buildPhase app env keys nonce expiry = .built (.stateChanging result) out tr) :
    ∀ amt, payloadAmount result.payload = some amt → amt = 0 := by
  rcases app with ⟨kp, action⟩
  cases action with
  | init modRef =>
      simp only [buildPhase] at hb
      injection hb with h1 h2 h3
      injection h1 with h4
      intro amt hamt
      rw [← h4] at hamt
      simp [send_init_contract, payloadAmount] at hamt
      omega
  | deploy mp =>
      simp only [buildPhase] at hb
      repeat' split at hb
      all_goals first | injection hb with h1 h2 h3 | injection hb
      all_goals injection h1 with h4
      all_goals intro amt hamt
      all_goals rw [← h4] at hamt
      all_goals simp [send_deploy_module, payloadAmount] at hamt
  | updateWithSchema pp sp addr t =>
      simp only [buildPhase] at hb
      repeat' split at hb
      all_goals first
        | exact updateBranch_amount_zero env keys nonce expiry addr t _ _ result out tr hb
        | injection hb

/-- C9: every init and update payload the transaction builder produces
carries an amount field, and since the CLI actions supply no amount that
amount is always exactly zero — for every block item a run submits, an
init/update payload amount is 0 (deploys carry no amount). -/
theorem C9_submitted_amounts_zero (app : App) (env : Env) (it : AccountTransaction)
    (hit : RpcCall.sendBlockItem it ∈ (run app env).trace) :
    ∀ amt, payloadAmount it.payload = some amt → amt = 0 := by
  rcases run_trace_characterization app env with h0 | ⟨keys, hk, hn, h1⟩ |
    ⟨keys, nonce, tr, hk, hn, htr, hrest⟩
  · rw [h0] at hit; simp at hit
  · rw [h1] at hit; simp at hit
  · have hnosend : ∀ x, RpcCall.sendBlockItem x ∉ tr := by
      intro x hmem
      obtain ⟨ctx, hc⟩ := htr _ hmem
      simp at hc
    rcases hrest with ⟨e, out, hb, hT⟩ | ⟨out, hb, hT⟩ |
      ⟨result, out, hb, ⟨hsend, hT, hexit⟩ | ⟨hash, hsend, hT⟩⟩
    · rw [hT] at hit
      simp at hit
      exact absurd hit (hnosend it)
    · rw [hT] at hit
      simp at hit
      exact absurd hit (hnosend it)
    · rw [hT] at hit
      simp at hit
      rcases hit with hit | hit
      · exact absurd hit (hnosend it)
      · rw [hit]
        exact buildPhase_amount_zero app env keys nonce (env.now + 300) result out tr hb
    · rw [hT] at hit
      simp at hit
      rcases hit with hit | hit
      · exact absurd hit (hnosend it)
      · rw [hit]
        exact buildPhase_amount_zero app env keys nonce (env.now + 300) result out tr hb

def appC9 : App := ⟨"keys.json", .init 77⟩

def envC9 : Env :=
  { connectOk := true, keysFile := some ⟨5⟩, accountNonce := some 3, now := 1000,
    parameterFile := none, parameterJson := none, schemaFile := none,
    moduleFile := none, moduleParsed := none, invokeResult := none,
    sendResult := some 11,
    finalization := some (22, ⟨.accountTransaction (.contractInitialized ⟨9, 0⟩)⟩) }

def txC9 : AccountTransaction :=
  ⟨5, 3, 1300, 10000, .initContract ⟨0, 77, "init_rust_sdk_minting_tutorial", []⟩⟩

/-- Witness for C9 at a concrete submitted init transaction. -/
theorem C9_submitted_amounts_zero_witness :
    RpcCall.sendBlockItem txC9 ∈ (run appC9 envC9).trace ∧
      ∀ amt, payloadAmount txC9.payload = some amt → amt = 0 :=
  ⟨by decide, C9_submitted_amounts_zero appC9 envC9 txC9 (by decide)⟩

/-! ## C6: a successful view invocation is decoded with the return layout -/

/-- C6: for a TokenMetadata (view) invocation that succeeds with returned
bytes, the value printed to the operator is exactly those bytes decoded via
the method's declared return-value layout from the schema (`rv_schema`) —
the output holds the return-layout decoding and nothing decoded from the
parameter layout — and the run then exits successfully with the
graceful-exit line. -/
theorem C6_view_decoded_with_return_layout (kp pp sp : String)
    (addr : ContractAddress) (env : Env) (keys : WalletAccount) (nonce : Nat)
    (pb sb : List Nat) (pj : StructuredValue) (schema : VersionedModuleSchema)
    (paramSchema rvSchema : TypeLayout) (ser bytes : List Nat) (v : StructuredValue)
    (hc : env.connectOk = true) (hk : env.keysFile = some keys)
    (hn : env.accountNonce = some nonce)
    (hpf : env.parameterFile = some pb) (hpj : env.parameterJson = some pj)
    (hsf : env.schemaFile = some sb)
    (hsch : readSchemaFromFileBytes sb = .ok schema)
    (hps : get_receive_param_schema schema tutorialContract "tokenMetadata" =
      some paramSchema)
    (hrs : get_receive_return_value_schema schema tutorialContract "tokenMetadata" =
      some rvSchema)
    (hser : encodeValue paramSchema pj = some ser)
    (hlen : ser.length ≤ maxParameterLen)
    (hinv : env.invokeResult = some (.success (some bytes)))
    (hdec : to_json_string_pretty rvSchema bytes = some v) :
    (run ⟨kp, .updateWithSchema (some pp) sp addr .tokenMetadata⟩ env).exit =
        .success ∧
      (run ⟨kp, .updateWithSchema (some pp) sp addr .tokenMetadata⟩ env).output =
        [.decodedReturnValue v, .noStateChanges] := by
  unfold run
  simp only [buildPhase, updateBranch, hc, hk, hn, hpf, hpj, hsf, hsch, hps, hrs, hser,
    hinv, hdec, owned_parameter_try_from, if_pos hlen]
  simp

def schemaBytesC6 : List Nat :=
  [3, 1, 25, 114, 117, 115, 116, 95, 115, 100, 107, 95, 109, 105, 110, 116, 105, 110,
   103, 95, 116, 117, 116, 111, 114, 105, 97, 108,
   1, 13, 116, 111, 107, 101, 110, 77, 101, 116, 97, 100, 97, 116, 97,
   1, 0, 1, 1, 0, 1]

/-- The schema `schemaBytesC6` denotes: contract `rust_sdk_minting_tutorial`
with method `tokenMetadata`, parameter layout uint8 and return layout
uint8. -/
def schemaC6 : VersionedModuleSchema :=
  ⟨3, [("rust_sdk_minting_tutorial",
    ⟨[("tokenMetadata", ⟨some (.uintN 1), some (.uintN 1)⟩)]⟩)]⟩

def appC6 : App := ⟨"keys.json", .updateWithSchema (some "param.json") "schema.b64" ⟨9, 0⟩
  .tokenMetadata⟩

def envC6 : Env :=
  { connectOk := true, keysFile := some ⟨5⟩, accountNonce := some 3, now := 1000,
    parameterFile := some [53], parameterJson := some (.num 5),
    schemaFile := some (b64Encode schemaBytesC6),
    moduleFile := none, moduleParsed := none,
    invokeResult := some (.success (some [9])),
    sendResult := none, finalization := none }

/-- Witness for C6: the concrete view run prints the uint8 value 9 decoded
from the returned byte via the return layout. -/
theorem C6_view_decoded_with_return_layout_witness :
    (run appC6 envC6).exit = .success ∧
      (run appC6 envC6).output = [.decodedReturnValue (.num 9), .noStateChanges] :=
  C6_view_decoded_with_return_layout "keys.json" "param.json" "schema.b64" ⟨9, 0⟩
    envC6 ⟨5⟩ 3 [53] (b64Encode schemaBytesC6) (.num 5) schemaC6
    (.uintN 1) (.uintN 1) [5] [9] (.num 9)
    rfl rfl rfl rfl rfl rfl (by rfl) rfl rfl
    (by simp [encodeValue, toLEBytes]) (by decide) rfl
    (by simp [to_json_string_pretty, decodeValue, fromLEBytes])

/-! ## C7: aborts at the unwrap sites carry no stage context -/

def appC7 : App :=
  ⟨"keys.json", .updateWithSchema none "schema.b64" ⟨9, 0⟩ .mint⟩

def envC7 : Env :=
  { connectOk := true, keysFile := some ⟨5⟩, accountNonce := some 3, now := 1000,
    parameterFile := none, parameterJson := none, schemaFile := none,
    moduleFile := none, moduleParsed := none, invokeResult := none,
    sendResult := none, finalization := none }

/-- Counterexample to C7: an UpdateWithSchema invocation given no parameter
file path does not abort with a contextual error naming the failing stage —
it aborts via the `parameter.unwrap()` panic, an uncontextualized abort. -/
theorem C7_counterexample :
    (run appC7 envC7).exit = .panicked .unwrapParameterPathNone ∧
      ∀ e : CliError, (run appC7 envC7).exit ≠ .failure e := by
  refine ⟨rfl, ?_⟩
  intro e
  simp [run, appC7, envC7, buildPhase]

/-- C7 amended: failures at the stages guarded by an error context abort
with a contextual error naming the stage, but the two unwrap sites named by
the claim abort via panic without any stage context: an UpdateWithSchema
invocation with no parameter path panics at `parameter.unwrap()`, and an
encoded parameter rejected by the parameter-size check panics at
`OwnedParameter::try_from(..).unwrap()`. -/
theorem C7_unwrap_sites_panic (kp sp : String) (addr : ContractAddress)
    (t : TransactionType) (env : Env) (keys : WalletAccount) (nonce : Nat)
    (hc : env.connectOk = true) (hk : env.keysFile = some keys)
    (hn : env.accountNonce = some nonce) :
    ((run ⟨kp, .updateWithSchema none sp addr t⟩ env).exit =
        .panicked .unwrapParameterPathNone) ∧
      (∀ (pp : String) (pb sb : List Nat) (pj : StructuredValue)
          (schema : VersionedModuleSchema) (paramSchema : TypeLayout) (ser : List Nat),
        env.parameterFile = some pb → env.parameterJson = some pj →
        env.schemaFile = some sb → readSchemaFromFileBytes sb = .ok schema →
        get_receive_param_schema schema tutorialContract "mint" = some paramSchema →
        encodeValue paramSchema pj = some ser → maxParameterLen < ser.length →
        (run ⟨kp, .updateWithSchema (some pp) sp addr .mint⟩ env).exit =
          .panicked (.unwrapParameterSize .mint)) := by
  constructor
  · unfold run
    simp [hc, hk, hn, buildPhase]
  · intro pp pb sb pj schema paramSchema ser hpf hpj hsf hsch hps hser hlen
    unfold run
    simp only [buildPhase, updateBranch, hc, hk, hn, hpf, hpj, hsf, hsch, hps, hser,
      owned_parameter_try_from, if_neg (by omega : ¬ser.length ≤ maxParameterLen)]
    simp

/-- Witness for the amended C7 at a concrete missing-parameter-path run. -/
theorem C7_unwrap_sites_panic_witness :
    ((run ⟨"keys.json", .updateWithSchema none "schema.b64" ⟨9, 0⟩ .mint⟩ envC7).exit =
        .panicked .unwrapParameterPathNone) ∧
      (∀ (pp : String) (pb sb : List Nat) (pj : StructuredValue)
          (schema : VersionedModuleSchema) (paramSchema : TypeLayout) (ser : List Nat),
        envC7.parameterFile = some pb → envC7.parameterJson = some pj →
        envC7.schemaFile = some sb → readSchemaFromFileBytes sb = .ok schema →
        get_receive_param_schema schema tutorialContract "mint" = some paramSchema →
        encodeValue paramSchema pj = some ser → maxParameterLen < ser.length →
        (run ⟨"keys.json", .updateWithSchema (some pp) "schema.b64" ⟨9, 0⟩ .mint⟩
            envC7).exit = .panicked (.unwrapParameterSize .mint)) :=
  C7_unwrap_sites_panic "keys.json" "schema.b64" ⟨9, 0⟩ .mint envC7 ⟨5⟩ 3 rfl rfl rfl

/-! ## C10: the TokenMetadata action never submits; its unwrap can panic -/

theorem updateBranch_tokenMetadata_no_state (env : Env) (keys : WalletAccount)
    (nonce expiry : Nat) (addr : ContractAddress) (schema : VersionedModuleSchema)
    (parameter : StructuredValue) :
    ∀ result out tr,
      updateBranch env keys nonce expiry addr .tokenMetadata schema parameter ≠
        .built (.stateChanging result) out tr := by
  intro result out tr h
  simp only [updateBranch] at h
  repeat' split at h
  all_goals first
    | (injection h with h1 h2 h3
       injection h1)
    | injection h

theorem buildPhase_tokenMetadata_no_state (kp sp : String) (pp : Option String)
    (addr : ContractAddress) (env : Env) (keys : WalletAccount) (nonce expiry : Nat) :
    ∀ result out tr,
      buildPhase ⟨kp, .updateWithSchema pp sp addr .tokenMetadata⟩ env keys nonce
          expiry ≠ .built (.stateChanging result) out tr := by
  intro result out tr h
  simp only [buildPhase] at h
  repeat' split at h
  all_goals first
    | exact updateBranch_tokenMetadata_no_state env keys nonce expiry addr _ _
        result out tr h
    | injection h

/-- C10 amended: a TokenMetadata (view) run never submits a block item and
never waits for finalization — the fetched nonce is left unused. A run
whose invoke fails prints the diagnostic and exits successfully; but a run
whose invoke succeeds with no return value aborts via the
`return_value.unwrap()` panic instead of terminating successfully. -/
theorem C10_view_never_submits (kp sp : String) (pp : Option String)
    (addr : ContractAddress) (env : Env) :
    ((run ⟨kp, .updateWithSchema pp sp addr .tokenMetadata⟩ env).trace.countP
        isSendBlockItem = 0 ∧
      (run ⟨kp, .updateWithSchema pp sp addr .tokenMetadata⟩ env).trace.countP
        isWaitUntilFinalized = 0) ∧
      (∀ (ppath : String) (pb sb : List Nat) (pj : StructuredValue)
          (schema : VersionedModuleSchema) (paramSchema rvSchema : TypeLayout)
          (ser : List Nat) (keys : WalletAccount) (nonce : Nat),
        pp = some ppath → env.connectOk = true → env.keysFile = some keys →
        env.accountNonce = some nonce →
        env.parameterFile = some pb → env.parameterJson = some pj →
        env.schemaFile = some sb → readSchemaFromFileBytes sb = .ok schema →
        get_receive_param_schema schema tutorialContract "tokenMetadata" =
          some paramSchema →
        get_receive_return_value_schema schema tutorialContract "tokenMetadata" =
          some rvSchema →
        encodeValue paramSchema pj = some ser → ser.length ≤ maxParameterLen →
        ((env.invokeResult = some .failure →
          (run ⟨kp, .updateWithSchema pp sp addr .tokenMetadata⟩ env).exit =
              .success ∧
            (run ⟨kp, .updateWithSchema pp sp addr .tokenMetadata⟩ env).output =
              [.invokeFailedDiagnostic, .noStateChanges]) ∧
         (env.invokeResult = some (.success none) →
          (run ⟨kp, .updateWithSchema pp sp addr .tokenMetadata⟩ env).exit =
            .panicked .unwrapReturnValueNone))) := by
  constructor
  · rcases run_trace_characterization ⟨kp, .updateWithSchema pp sp addr .tokenMetadata⟩
      env with h0 | ⟨keys, hk, hn, h1⟩ | ⟨keys, nonce, tr, hk, hn, htr, hrest⟩
    · simp [h0]
    · simp [h1]
    · obtain ⟨-, hs0, hw0⟩ := countP_eq_zero_of_only_invoke htr
      rcases hrest with ⟨e, out, hb, hT⟩ | ⟨out, hb, hT⟩ |
        ⟨result, out, hb, hrest2⟩
      · simp [hT, List.countP_cons, hs0, hw0]
      · simp [hT, List.countP_cons, hs0, hw0]
      · exact absurd hb (buildPhase_tokenMetadata_no_state kp sp pp addr env keys
          nonce (env.now + 300) result out tr)
  · intro ppath pb sb pj schema paramSchema rvSchema ser keys nonce hpp hc hk hn
      hpf hpj hsf hsch hps hrs hser hlen
    subst hpp
    constructor
    · intro hinv
      unfold run
      simp only [buildPhase, updateBranch, hc, hk, hn, hpf, hpj, hsf, hsch, hps, hrs,
        hser, hinv, owned_parameter_try_from, if_pos hlen]
      simp
    · intro hinv
      unfold run
      simp only [buildPhase, updateBranch, hc, hk, hn, hpf, hpj, hsf, hsch, hps, hrs,
        hser, hinv, owned_parameter_try_from, if_pos hlen]
      simp

def appC10 : App :=
  ⟨"keys.json", .updateWithSchema (some "param.json") "schema.b64" ⟨9, 0⟩
    .tokenMetadata⟩

def envC10 : Env :=
  { connectOk := true, keysFile := some ⟨5⟩, accountNonce := some 3, now := 1000,
    parameterFile := some [53], parameterJson := some (.num 5),
    schemaFile := some (b64Encode schemaBytesC6),
    moduleFile := none, moduleParsed := none,
    invokeResult := some (.success none),
    sendResult := none, finalization := none }

/-- Counterexample to C10: a TokenMetadata run whose read-only invoke
succeeds but returns no value does not terminate successfully — it aborts
via the `return_value.unwrap()` panic (though, as the claim's frame part
says, still without submitting anything). -/
theorem C10_counterexample :
    (run appC10 envC10).exit = .panicked .unwrapReturnValueNone ∧
      (run appC10 envC10).exit ≠ .success ∧
      (run appC10 envC10).trace.countP isSendBlockItem = 0 := by
  have hsch : readSchemaFromFileBytes (b64Encode schemaBytesC6) = .ok schemaC6 := by
    rfl
  have hps : get_receive_param_schema schemaC6 tutorialContract "tokenMetadata" =
      some (.uintN 1) := by rfl
  have hrs : get_receive_return_value_schema schemaC6 tutorialContract
      "tokenMetadata" = some (.uintN 1) := by rfl
  have hser : encodeValue (.uintN 1) (.num 5) = some [5] := by
    simp [encodeValue, toLEBytes]
  refine ⟨?_, ?_, ?_⟩ <;>
    (unfold run
     simp [appC10, envC10, buildPhase, updateBranch, hsch, hps, hrs, hser,
       owned_parameter_try_from, maxParameterLen])

/-- Witness for the amended C10 at the concrete view run of `envC10`. -/
theorem C10_view_never_submits_witness :
    ((run ⟨"keys.json", .updateWithSchema (some "param.json") "schema.b64" ⟨9, 0⟩
          .tokenMetadata⟩ envC10).trace.countP isSendBlockItem = 0 ∧
      (run ⟨"keys.json", .updateWithSchema (some "param.json") "schema.b64" ⟨9, 0⟩
          .tokenMetadata⟩ envC10).trace.countP isWaitUntilFinalized = 0) ∧
      (∀ (ppath : String) (pb sb : List Nat) (pj : StructuredValue)
          (schema : VersionedModuleSchema) (paramSchema rvSchema : TypeLayout)
          (ser : List Nat) (keys : WalletAccount) (nonce : Nat),
        some "param.json" = some ppath → envC10.connectOk = true →
        envC10.keysFile = some keys → envC10.accountNonce = some nonce →
        envC10.parameterFile = some pb → envC10.parameterJson = some pj →
        envC10.schemaFile = some sb → readSchemaFromFileBytes sb = .ok schema →
        get_receive_param_schema schema tutorialContract "tokenMetadata" =
          some paramSchema →
        get_receive_return_value_schema schema tutorialContract "tokenMetadata" =
          some rvSchema →
        encodeValue paramSchema pj = some ser → ser.length ≤ maxParameterLen →
        ((envC10.invokeResult = some .failure →
          (run ⟨"keys.json", .updateWithSchema (some "param.json") "schema.b64"
              ⟨9, 0⟩ .tokenMetadata⟩ envC10).exit = .success ∧
            (run ⟨"keys.json", .updateWithSchema (some "param.json") "schema.b64"
                ⟨9, 0⟩ .tokenMetadata⟩ envC10).output =
              [.invokeFailedDiagnostic, .noStateChanges]) ∧
         (envC10.invokeResult = some (.success none) →
          (run ⟨"keys.json", .updateWithSchema (some "param.json") "schema.b64"
              ⟨9, 0⟩ .tokenMetadata⟩ envC10).exit =
            .panicked .unwrapReturnValueNone))) :=
  C10_view_never_submits "keys.json" "schema.b64" (some "param.json") ⟨9, 0⟩ envC10

end NftSdk
